/-
Verification of the molding path-to-mesh generator (archipack_molding.py).

The geometry core is shallowly embedded over ℝ: 2D/3D vectors are pairs /
triples of reals, Blender float arithmetic is modelled by exact real
arithmetic, and the Python exception paths (ZeroDivisionError on
`f.dz / f.line.length`, NameError on an unbound `v1`) are modelled by
`Option`, with `none` meaning the call raises.

Everything under `archipack_molding.py` is translated directly from the
source.  The helper methods that live in other files of the repository
(`archipack_2d.Line.make_offset/sized_normal/straight/rotate`, the
`panel.Lofter` face/material/uv builders) are not in the source tree and
are modelled from the specification; each such definition carries a
`Modelled from the spec:` doc comment.
-/
import Mathlib

noncomputable section

namespace ArchipackMolding

/-- Planar vector, modelling `mathutils.Vector((x, y))`. -/
@[ext]
structure Vec2 where
  x : ℝ
  y : ℝ

/-- Spatial vector, modelling `mathutils.Vector((x, y, z))` and vertex triples. -/
@[ext]
structure Vec3 where
  x : ℝ
  y : ℝ
  z : ℝ

def Vec2.add (a b : Vec2) : Vec2 := ⟨a.x + b.x, a.y + b.y⟩

instance : Add Vec2 := ⟨Vec2.add⟩

def Vec2.sub (a b : Vec2) : Vec2 := ⟨a.x - b.x, a.y - b.y⟩

instance : Sub Vec2 := ⟨Vec2.sub⟩

def Vec2.smul (r : ℝ) (v : Vec2) : Vec2 := ⟨r * v.x, r * v.y⟩

instance : SMul ℝ Vec2 := ⟨Vec2.smul⟩

/-- Dot product, modelling mathutils `v0 * v1` on 2D vectors. -/
def Vec2.dot (a b : Vec2) : ℝ := a.x * b.x + a.y * b.y

/-- Euclidean length, modelling mathutils `.length`. -/
def Vec2.len (v : Vec2) : ℝ := Real.sqrt (v.x ^ 2 + v.y ^ 2)

/-- mathutils `.normalized()`: the zero vector normalizes to the zero vector. -/
def Vec2.normalized (v : Vec2) : Vec2 :=
  if v.len = 0 then ⟨0, 0⟩ else ⟨v.x / v.len, v.y / v.len⟩

/-- Left-hand normal of a direction vector (rotation by +90 degrees). -/
def Vec2.leftNormal (v : Vec2) : Vec2 := ⟨-v.y, v.x⟩

def Vec3.sub (a b : Vec3) : Vec3 := ⟨a.x - b.x, a.y - b.y, a.z - b.z⟩

instance : Sub Vec3 := ⟨Vec3.sub⟩

@[simp] lemma Vec2.add_x (a b : Vec2) : (a + b).x = a.x + b.x := rfl
@[simp] lemma Vec2.add_y (a b : Vec2) : (a + b).y = a.y + b.y := rfl
@[simp] lemma Vec2.sub_x (a b : Vec2) : (a - b).x = a.x - b.x := rfl
@[simp] lemma Vec2.sub_y (a b : Vec2) : (a - b).y = a.y - b.y := rfl
@[simp] lemma Vec2.smul_x (r : ℝ) (v : Vec2) : (r • v).x = r * v.x := rfl
@[simp] lemma Vec2.smul_y (r : ℝ) (v : Vec2) : (r • v).y = r * v.y := rfl
@[simp] lemma Vec3.x_sub (a b : Vec3) : (a - b).x = a.x - b.x := rfl
@[simp] lemma Vec3.y_sub (a b : Vec3) : (a - b).y = a.y - b.y := rfl
@[simp] lemma Vec3.z_sub (a b : Vec3) : (a - b).z = a.z - b.z := rfl

/-- A 2D line: origin `p` and direction `v`, as in `archipack_2d.Line`. -/
@[ext]
structure Line2 where
  p : Vec2
  v : Vec2

/-- Line length: the length of the direction vector. -/
def Line2.length (l : Line2) : ℝ := l.v.len

/-- Point at parameter `t` along the line. -/
def Line2.lerp (l : Line2) (t : ℝ) : Vec2 := l.p + t • l.v

/-- Modelled from the spec: `archipack_2d.Line.sized_normal` is not under
src/.  Per the spec a section frame is a position together with the
segment's unit (tangent) direction (SectionFrame: `tangentDirection:
Vector2D (unit)`; frame direction at an endpoint "is simply the segment's
own direction"), so the frame produced at parameter `t` carries the point
`lerp t` and the unit direction of the line scaled by `size`. -/
def Line2.sized_normal (l : Line2) (t size : ℝ) : Line2 :=
  ⟨l.lerp t, size • l.v.normalized⟩

/-- A chain segment: `StraightMolding`, i.e. `Molding` state (`dz`, `z0`)
plus `Line` geometry (`p`, `v`).  `line` is the lateral offset line set by
`set_offset` / `make_profile` (absent before it is first assigned). -/
structure Seg where
  p : Vec2
  v : Vec2
  dz : ℝ
  z0 : ℝ
  line : Option Line2

/-- One part of the user-facing parts list (`archipack_molding_part`):
`length`, start angle `a0`, elevation delta `dz`. -/
structure Part where
  length : ℝ
  a0 : ℝ
  dz : ℝ

/-- Rotation of a vector by angle `a` (counter-clockwise). -/
def rot (a : ℝ) (v : Vec2) : Vec2 :=
  ⟨v.x * Real.cos a - v.y * Real.sin a, v.x * Real.sin a + v.y * Real.cos a⟩

/-- Modelled from the spec: `archipack_2d.Line.straight` and `.rotate`
(used by `Molding.straight_molding`) are not under src/.  Spec section 4.1:
"Each subsequent segment: direction is the previous segment's direction
rotated by the new part's startAngle, scaled to the new part's length;
origin is the previous segment's endpoint."  The fresh `StraightMolding`
starts with `dz = 0`, `z0 = 0` and no offset line (`Molding.__init__`). -/
def straight_molding (s : Seg) (a0 length : ℝ) : Seg :=
  ⟨s.p + s.v, length • rot a0 s.v.normalized, 0, 0, none⟩

/-- `MoldingGenerator.add_part`: appends a fresh segment to the chain.
The first segment starts at the origin with direction
`length * (cos a0, sin a0)`; later segments chain off the previous one.
Note the source never copies `part.dz` into the segment: the new
`StraightMolding` keeps `dz = 0`, `z0 = 0` from `Molding.__init__`. -/
def add_part (segs : List Seg) (part : Part) : List Seg :=
  match segs.getLast? with
  | none => segs ++ [⟨⟨0, 0⟩, part.length • (⟨Real.cos part.a0, Real.sin part.a0⟩ : Vec2),
      0, 0, none⟩]
  | some s => segs ++ [straight_molding s part.a0 part.length]

/-- The chain built by `get_generator`: `add_part` over the parts in order. -/
def build_chain (parts : List Part) : List Seg := parts.foldl add_part []

/-- Modelled from the spec: `archipack_2d.Line.make_offset` is not under
src/.  Spec section 3: the offset line is "a parallel segment obtained by
translating `origin` by `offset * leftNormal(direction_normalized)`";
section 4.2: "No cross-segment intersection trimming is performed in the
current algorithm", so the `last` argument is kept for signature fidelity
but does not affect the result. -/
def seg_make_offset (s : Seg) (offset : ℝ) (_last : Option Line2) : Line2 :=
  ⟨s.p + offset • s.v.normalized.leftNormal, s.v⟩

/-- `MoldingGenerator.set_offset` loop body: sets every segment's `line`,
threading the previously computed line as `last`. -/
def set_offset_aux : List Seg → ℝ → Option Line2 → List Seg
  | [], _, _ => []
  | s :: rest, offset, last =>
    { s with line := some (seg_make_offset s offset last) } ::
      set_offset_aux rest offset (some (seg_make_offset s offset last))

/-- `MoldingGenerator.set_offset`. -/
def set_offset (segs : List Seg) (offset : ℝ) : List Seg :=
  set_offset_aux segs offset none

/-- A segment as seen by `make_profile` after its offset pass: the freshly
assigned offset line together with the `Molding` state `dz`, `z0`. -/
structure OSeg where
  line : Line2
  dz : ℝ
  z0 : ℝ

/-- The offset pass at the top of `make_profile`:
`seg.line = seg.make_offset(x_offset, last)` for each segment in order. -/
def offset_pass : List Seg → ℝ → Option Line2 → List OSeg
  | [], _, _ => []
  | s :: rest, offset, last =>
    ⟨seg_make_offset s offset last, s.dz, s.z0⟩ ::
      offset_pass rest offset (some (seg_make_offset s offset last))

/-- One entry of the `sections` list of `make_profile`: the tuple
`(n, dz / length, elevation)`. -/
structure Section where
  n : Line2
  dz : ℝ
  z : ℝ

/-- Default section used for out-of-range list access in statements. -/
def defSec : Section := ⟨⟨⟨0, 0⟩, ⟨0, 0⟩⟩, 0, 0⟩

/-- The section-building block of `make_profile` (its lines 147-167):
detects a closed path on the offset lines, emits the first frame (at the
wrap joint for a closed path, at the start of the first segment
otherwise), then one frame at the end of every segment whose offset line
has nonzero length.  `none` models the ZeroDivisionError raised by
`f.dz / f.line.length` when the first segment's offset line has zero
length (that division is the only unguarded one: the per-segment loop
skips zero-length lines before dividing). -/
def make_sections (os : List OSeg) : Option (Bool × List Section) :=
  match os with
  | [] => none
  | f :: rest =>
    let f_last := (rest.getLastD f).line
    let cp : Bool := decide ((f.line.p - (f_last.p + f_last.v)).len < 0.0001)
    let n0 : Line2 := if cp then f_last.sized_normal 1 1 else f.line.sized_normal 0 1
    if f.line.length = 0 then none
    else some (cp, ⟨n0, f.dz / f.line.length, f.z0⟩ ::
      (f :: rest).filterMap (fun g =>
        if g.line.length = 0 then none
        else some ⟨g.line.sized_normal 1 1, g.dz / g.line.length, g.z0 + g.dz⟩))

/-- The mitre scale of one joint, as a function of the dot product `d` of
the two unit directions:
`scale = min(10, 1 / cos(0.5 * acos(min(1, max(-1, v0 * v1)))))`.
When the half-angle cosine is exactly zero — which over the reals happens
only at `d = -1` — the source's IEEE arithmetic still divides by the
nonzero rounding residue `cos(0.5 * acos(-1.0)) ≈ 6.12e-17 > 0`, so the
`min` caps the huge quotient at 10; the real-valued embedding makes that
endpoint behaviour explicit with the guard (an unguarded real `1 / 0`
would be junk matching neither the program nor exact mathematics). -/
def mitre_scale (d : ℝ) : ℝ :=
  let c := Real.cos (0.5 * Real.arccos (min 1 (max (-1) d)))
  if c = 0 then 10 else min 10 (1 / c)

/-- The inner profile loop of `make_profile`: one vertex per profile point,
placed at `n.p + scale * p.x * dir` with height `zl + p.y + z_offset`,
where `dir = (v0 + v1).normalized()` and `scale` is the mitre scale of the
joint. -/
def sweep_verts (profile : List Vec2) (z_offset : ℝ) (sec : Section) (v0 v1 : Vec2) :
    List Vec3 :=
  profile.map (fun p =>
    ⟨sec.n.p.x + mitre_scale (v0.dot v1) * p.x * ((v0 + v1).normalized).x,
     sec.n.p.y + mitre_scale (v0.dot v1) * p.x * ((v0 + v1).normalized).y,
     sec.z + p.y + z_offset⟩)

/-- The `for s, section in enumerate(sections)` loop of `make_profile`,
threaded functionally: `first` is `s = 0` (no uv distance is recorded
there), `p0`/`v0` are the loop-carried previous position and direction,
and `v1s` is the Python variable `v1`, which is unbound (`none`) until the
first iteration that sets it.  On the last section an open path reuses the
stale `v1` (emission), a closed path breaks after recording the uv
distance.  `none` models the NameError raised when the stale `v1` is read
while still unbound (single-section open path). -/
def sweep_loop (profile : List Vec2) (z_offset : ℝ) (closed_path : Bool) :
    List Section → Bool → Vec2 → Vec2 → Option Vec2 → Option (List Vec3 × List ℝ)
  | [], _, _, _, _ => some ([], [])
  | sec :: rest, first, p0, v0, v1s =>
    let p1 := sec.n.p
    let uvh : List ℝ := if first then [] else [(p1 - p0).len]
    match rest with
    | next :: rest2 =>
      let v1 := next.n.v.normalized
      match sweep_loop profile z_offset closed_path (next :: rest2) false p1 v1 (some v1) with
      | none => none
      | some (vs, us) =>
        some (sweep_verts profile z_offset sec v0 v1 ++ vs, uvh ++ us)
    | [] =>
      if closed_path then some ([], uvh)
      else
        match v1s with
        | none => none
        | some v1 => some (sweep_verts profile z_offset sec v0 v1, uvh)

/-- Modelled from the spec: `panel.Panel` (imported as `Lofter`) is not
under src/.  Spec section 4.4: "a ring of `|profile|` vertices per
section, connected to the next section's ring, forming a quad strip; if
`closedProfile` the last profile point connects back to the first within
each ring; if the path itself is closed, the last ring connects back to
the first ring"; section 8 fixes the count: `(m-1)` rings of `k` faces for
an open path with a closed profile. -/
def lofter_faces (k m offset : ℕ) (closed_profile closed_path : Bool) : List (List ℕ) :=
  let rings := if closed_path then m else m - 1
  let per := if closed_profile then k else k - 1
  (List.range rings).flatMap (fun i =>
    (List.range per).map (fun j =>
      [offset + i * k + j, offset + i * k + (j + 1) % k,
       offset + ((i + 1) % m) * k + (j + 1) % k, offset + ((i + 1) % m) * k + j]))

/-- Modelled from the spec: `Lofter.mat` is not under src/.  Spec sections
3 and 6: `materialIds` is a per-face array aligned with `faces`, every
entry equal to the supplied material id. -/
def lofter_mat (k m : ℕ) (closed_profile closed_path : Bool) (idmat : ℕ) : List ℕ :=
  List.replicate ((if closed_path then m else m - 1) * (if closed_profile then k else k - 1))
    idmat

/-- Modelled from the spec: `Lofter.uv` is not under src/.  Spec section
4.4: one uv quad per face whose u-parameter is the cumulative Euclidean
distance between successive frame positions (`user_path_uv_v`). -/
def lofter_uvs (uv_v : List ℝ) (k m : ℕ) (closed_profile closed_path : Bool) :
    List (List (ℝ × ℝ)) :=
  let rings := if closed_path then m else m - 1
  let per := if closed_profile then k else k - 1
  (List.range rings).flatMap (fun i =>
    (List.range per).map (fun j =>
      [((uv_v.take i).sum, (j : ℝ)), ((uv_v.take (i + 1)).sum, (j : ℝ)),
       ((uv_v.take (i + 1)).sum, (j : ℝ) + 1), ((uv_v.take i).sum, (j : ℝ) + 1)]))

/-- The four mesh buffers handed to `make_profile` (owned by the caller). -/
structure Buffers where
  verts : List Vec3
  faces : List (List ℕ)
  matids : List ℕ
  uvs : List (List (ℝ × ℝ))

/-- `MoldingGenerator.make_profile`: offset pass, early return on an empty
chain, section building, profile sweep, then the lofter's face / material
/ uv lists appended to the caller's buffers.  `user_path_verts` is
decremented for a closed path before the lofter call.  `none` models an
escaping Python exception. -/
def make_profile (segs : List Seg) (profile : List Vec2) (idmat : ℕ)
    (x_offset z_offset _extend : ℝ) (closed : Bool) (b : Buffers) : Option Buffers :=
  match offset_pass segs x_offset none with
  | [] => some b
  | f :: rest =>
    match make_sections (f :: rest) with
    | none => none
    | some (cp, σs) =>
      match σs with
      | [] => some b
      | σ0 :: σrest =>
        match sweep_loop profile z_offset cp (σ0 :: σrest) true σ0.n.p
            σ0.n.v.normalized none with
        | none => none
        | some (vs, uv_v) =>
          let m := if cp then (σ0 :: σrest).length - 1 else (σ0 :: σrest).length
          some ⟨b.verts ++ vs,
                b.faces ++ lofter_faces profile.length m b.verts.length closed cp,
                b.matids ++ lofter_mat profile.length m closed cp idmat,
                b.uvs ++ lofter_uvs uv_v profile.length m closed cp⟩

/-- Number of segments of the chain whose direction has nonzero length. -/
def nonzeroCount : List Seg → ℕ
  | [] => 0
  | s :: rest => (if s.v.len = 0 then 0 else 1) + nonzeroCount rest

/-- The number of section frames the sweep emits (`user_path_verts` after
the closed-path decrement). -/
def frame_count (segs : List Seg) (x_offset : ℝ) : Option ℕ :=
  (make_sections (offset_pass segs x_offset none)).map
    (fun pr => if pr.1 then pr.2.length - 1 else pr.2.length)

/-- The elevation recorded at each section frame. -/
def frame_elevations (segs : List Seg) (x_offset : ℝ) : Option (List ℝ) :=
  (make_sections (offset_pass segs x_offset none)).map (fun pr => pr.2.map Section.z)

/-- Closed form of the vertex stream produced by `sweep_loop` when the loop
state satisfies its invariant (established in `sweep_loop_run`): at every
iteration the incoming direction `v0` is the current section's unit
direction, except at the head call where it is the caller's initial
direction. -/
def sweep_spec (profile : List Vec2) (z_offset : ℝ) (closed_path : Bool) :
    List Section → Vec2 → List Vec3
  | [], _ => []
  | [sec], v0 => if closed_path then [] else sweep_verts profile z_offset sec v0 v0
  | sec :: next :: rest, v0 =>
    sweep_verts profile z_offset sec v0 next.n.v.normalized ++
      sweep_spec profile z_offset closed_path (next :: rest) next.n.v.normalized

/-- Closed form of the uv distance list recorded by `sweep_loop` from the
second iteration on: the Euclidean distances between consecutive section
positions. -/
def uv_spec : List Section → Vec2 → List ℝ
  | [], _ => []
  | sec :: rest, p0 => (sec.n.p - p0).len :: uv_spec rest sec.n.p

/-- Unit direction stored in the `s`-th section frame. -/
def secDir (σs : List Section) (s : ℕ) : Vec2 := ((σs.getD s defSec).n.v).normalized

/-- Outgoing direction used at the `s`-th frame: the next section's unit
direction, or (at the final frame of an open path) the stale previous one,
which equals the frame's own direction. -/
def frameOut (σs : List Section) (s : ℕ) : Vec2 :=
  if s + 1 < σs.length then secDir σs (s + 1) else secDir σs s

/-- Direction along which profile x-offsets are applied at the `s`-th
frame: the normalized sum (angle bisector) of the incoming and outgoing
directions. -/
def frameDir (σs : List Section) (s : ℕ) : Vec2 :=
  (secDir σs s + frameOut σs s).normalized

/-- Mitre scale applied at the `s`-th frame. -/
def frameScale (σs : List Section) (s : ℕ) : ℝ :=
  mitre_scale ((secDir σs s).dot (frameOut σs s))

/-- Position of the `s`-th section frame. -/
def framePos (σs : List Section) (s : ℕ) : Vec2 := (σs.getD s defSec).n.p

/-- Elevation of the `s`-th section frame. -/
def frameZ (σs : List Section) (s : ℕ) : ℝ := (σs.getD s defSec).z

/-- Python `math.atan2`: the angle of the point `(x, y)`, in `(-π, π]`
(reals carry no negative zero, so the `-π` results of `atan2(-0.0, x<0)`
do not arise). -/
def atan2 (y x : ℝ) : ℝ :=
  if 0 < x then Real.arctan (y / x)
  else if x < 0 then
    (if 0 ≤ y then Real.arctan (y / x) + Real.pi else Real.arctan (y / x) - Real.pi)
  else if 0 < y then Real.pi / 2
  else if y < 0 then -(Real.pi / 2)
  else 0

/-- The two sequential wrap tests of `from_spline`:
`if da > pi: da -= 2*pi` then `if da < -pi: da += 2*pi`. -/
def wrap (da : ℝ) : ℝ :=
  let d1 := if Real.pi < da then da - 2 * Real.pi else da
  if d1 < -Real.pi then d1 + 2 * Real.pi else d1

/-- The per-point loop of `archipack_molding.from_spline` (its lines
495-509): each consecutive delta yields a part with planar length, the
wrapped heading difference `da`, and the z delta; `a0` accumulates `da`. -/
def from_spline_loop : List Vec3 → Vec3 → ℝ → List Part
  | [], _, _ => []
  | p1 :: rest, p0, a0 =>
    let dp := p1 - p0
    let da := wrap (atan2 dp.y dp.x - a0)
    ⟨Real.sqrt (dp.x ^ 2 + dp.y ^ 2), da, dp.z⟩ :: from_spline_loop rest p1 (a0 + da)

/-- `from_spline` applied to an already-sampled point sequence: the first
point is popped as the running origin and the accumulator starts at 0. -/
def parts_from_pts (pts : List Vec3) : List Part :=
  match pts with
  | [] => []
  | p0 :: rest => from_spline_loop rest p0 0

/-- Angle between two vectors (for unit vectors, `arccos` of their dot
product). -/
def angleBetween (a b : Vec2) : ℝ := Real.arccos (a.dot b / (a.len * b.len))

/-- The SQUARE profile of `archipack_molding.update`:
`[(0, y), (0, 0), (x, 0), (x, y)]`. -/
def square_profile (x y : ℝ) : List Vec2 := [⟨0, y⟩, ⟨0, 0⟩, ⟨x, 0⟩, ⟨x, y⟩]

/-- The cyclically closed 4-point square curve: a POLY spline with
`use_cyclic_u` repeats its first point at the end. -/
def squarePts : List Vec3 :=
  [⟨0, 0, 0⟩, ⟨2, 0, 0⟩, ⟨2, 2, 0⟩, ⟨0, 2, 0⟩] ++ [⟨0, 0, 0⟩]

/-- Empty mesh buffers. -/
def emptyB : Buffers := ⟨[], [], [], []⟩

/-- Default part used for out-of-range list access in statements. -/
def defPart : Part := ⟨0, 0, 0⟩

/-- Default point used for out-of-range list access in statements. -/
def defV3 : Vec3 := ⟨0, 0, 0⟩

/-- The closed-path test of `make_profile` (its lines 149-151) as a Prop on
the chain: the distance between the first offset line's origin and the last
offset line's endpoint is below the 1e-4 tolerance. -/
def closesWithin (segs : List Seg) (x_offset : ℝ) : Prop :=
  match offset_pass segs x_offset none with
  | [] => False
  | f :: rest =>
    (f.line.p - (((rest.getLastD f).line).p + ((rest.getLastD f).line).v)).len < 0.0001

lemma sqrt_eval {a b : ℝ} (hb : 0 ≤ b) (h : b ^ 2 = a) : Real.sqrt a = b := by
  subst h
  exact Real.sqrt_sq hb

lemma Vec2.len_nonneg (v : Vec2) : 0 ≤ v.len := Real.sqrt_nonneg _

lemma Vec2.len_eq_zero {v : Vec2} : v.len = 0 ↔ v.x = 0 ∧ v.y = 0 := by
  rw [Vec2.len, Real.sqrt_eq_zero (by positivity)]
  constructor
  · intro h
    constructor <;> nlinarith [sq_nonneg v.x, sq_nonneg v.y]
  · rintro ⟨h1, h2⟩
    rw [h1, h2]
    ring

lemma Vec2.sq_add_sq_of_len_one {v : Vec2} (h : v.len = 1) : v.x ^ 2 + v.y ^ 2 = 1 := by
  have h0 : (0 : ℝ) ≤ v.x ^ 2 + v.y ^ 2 := by positivity
  have := Real.sq_sqrt h0
  rw [Vec2.len] at h
  rw [h] at this
  linarith [this]

lemma Vec2.normalized_len {v : Vec2} (h : v.len ≠ 0) : v.normalized.len = 1 := by
  have h2 : v.len ^ 2 = v.x ^ 2 + v.y ^ 2 := Real.sq_sqrt (by positivity)
  rw [Vec2.normalized, if_neg h]
  show Real.sqrt ((v.x / v.len) ^ 2 + (v.y / v.len) ^ 2) = 1
  have : (v.x / v.len) ^ 2 + (v.y / v.len) ^ 2 = 1 := by
    field_simp
    linarith [h2]
  rw [this, Real.sqrt_one]

lemma Vec2.normalized_of_len_one {v : Vec2} (h : v.len = 1) : v.normalized = v := by
  rw [Vec2.normalized, if_neg (by rw [h]; norm_num), h]
  ext <;> simp

lemma Vec2.normalized_idem (v : Vec2) : v.normalized.normalized = v.normalized := by
  by_cases h : v.len = 0
  · have h1 : v.normalized = ⟨0, 0⟩ := by rw [Vec2.normalized, if_pos h]
    have h2 : (⟨0, 0⟩ : Vec2).len = 0 := by
      rw [Vec2.len]
      norm_num
    rw [h1, Vec2.normalized, if_pos h2]
  · exact Vec2.normalized_of_len_one (Vec2.normalized_len h)

lemma Vec2.double_normalized {v : Vec2} (h : v.len = 1) : (v + v).normalized = v := by
  have hs : v.x ^ 2 + v.y ^ 2 = 1 := Vec2.sq_add_sq_of_len_one h
  have hlen : (v + v).len = 2 := by
    show Real.sqrt ((v.x + v.x) ^ 2 + (v.y + v.y) ^ 2) = 2
    have : (v.x + v.x) ^ 2 + (v.y + v.y) ^ 2 = 4 := by nlinarith
    rw [this]
    exact sqrt_eval (by norm_num) (by norm_num)
  rw [Vec2.normalized, if_neg (by rw [hlen]; norm_num), hlen]
  ext <;> simp

lemma Vec2.dot_self_of_len_one {v : Vec2} (h : v.len = 1) : v.dot v = 1 := by
  have hs := Vec2.sq_add_sq_of_len_one h
  rw [Vec2.dot]
  nlinarith

lemma Vec2.neg_one_le_dot {a b : Vec2} (ha : a.len = 1) (hb : b.len = 1) :
    -1 ≤ a.dot b := by
  have hsa := Vec2.sq_add_sq_of_len_one ha
  have hsb := Vec2.sq_add_sq_of_len_one hb
  rw [Vec2.dot]
  nlinarith [sq_nonneg (a.x + b.x), sq_nonneg (a.y + b.y)]

lemma Vec2.dot_le_one {a b : Vec2} (ha : a.len = 1) (hb : b.len = 1) :
    a.dot b ≤ 1 := by
  have hsa := Vec2.sq_add_sq_of_len_one ha
  have hsb := Vec2.sq_add_sq_of_len_one hb
  rw [Vec2.dot]
  nlinarith [sq_nonneg (a.x - b.x), sq_nonneg (a.y - b.y)]

lemma Vec2.eq_of_unit_dot_one {a b : Vec2} (ha : a.len = 1) (hb : b.len = 1)
    (hd : a.dot b = 1) : a = b := by
  have hsa := Vec2.sq_add_sq_of_len_one ha
  have hsb := Vec2.sq_add_sq_of_len_one hb
  rw [Vec2.dot] at hd
  have hx : a.x = b.x := by nlinarith [sq_nonneg (a.x - b.x), sq_nonneg (a.y - b.y)]
  have hy : a.y = b.y := by nlinarith [sq_nonneg (a.x - b.x), sq_nonneg (a.y - b.y)]
  exact Vec2.ext hx hy

lemma clamp_of_mem {d : ℝ} (h1 : -1 ≤ d) (h2 : d ≤ 1) : min 1 (max (-1) d) = d := by
  rw [max_eq_right h1, min_eq_right h2]

lemma mitre_scale_one : mitre_scale 1 = 1 := by
  rw [mitre_scale]
  have hc : min (1 : ℝ) (max (-1) 1) = 1 := by norm_num
  rw [hc, Real.arccos_one, mul_zero, Real.cos_zero]
  norm_num

lemma mitre_scale_bounds {d : ℝ} (h1 : -1 ≤ d) (h2 : d ≤ 1) :
    1 ≤ mitre_scale d ∧ mitre_scale d ≤ 10 := by
  rw [mitre_scale, clamp_of_mem h1 h2]
  set c := Real.cos (0.5 * Real.arccos d) with hc
  have hnn : 0 ≤ c := by
    apply Real.cos_nonneg_of_mem_Icc
    constructor
    · have := Real.arccos_nonneg d
      have := Real.pi_pos
      nlinarith
    · have := Real.arccos_le_pi d
      nlinarith
  by_cases h0 : c = 0
  · rw [if_pos h0]
    norm_num
  · rw [if_neg h0]
    have hpos : 0 < c := lt_of_le_of_ne hnn (Ne.symm h0)
    have hle : c ≤ 1 := Real.cos_le_one _
    have hge : (1 : ℝ) ≤ 1 / c := by
      rw [le_div_iff₀ hpos, one_mul]
      exact hle
    exact ⟨le_min (by norm_num) hge, min_le_left _ _⟩

lemma mitre_scale_eq_one_iff {d : ℝ} (h1 : -1 ≤ d) (h2 : d ≤ 1) :
    mitre_scale d = 1 ↔ d = 1 := by
  constructor
  · intro h
    rw [mitre_scale, clamp_of_mem h1 h2] at h
    set c := Real.cos (0.5 * Real.arccos d) with hcdef
    have hnn : 0 ≤ c := by
      apply Real.cos_nonneg_of_mem_Icc
      constructor
      · have := Real.arccos_nonneg d
        have := Real.pi_pos
        nlinarith
      · have := Real.arccos_le_pi d
        nlinarith
    by_cases h0 : c = 0
    · rw [if_pos h0] at h
      norm_num at h
    · rw [if_neg h0] at h
      have hpos : 0 < c := lt_of_le_of_ne hnn (Ne.symm h0)
      have hcone : c = 1 := by
        rcases le_total (1 / c) 10 with hle | hle
        · rw [min_eq_right hle] at h
          field_simp at h
          linarith
        · rw [min_eq_left hle] at h
          norm_num at h
      have harc : 0.5 * Real.arccos d = 0 := by
        have hpi := Real.pi_pos
        have hub : 0.5 * Real.arccos d < 2 * Real.pi := by
          have := Real.arccos_le_pi d
          nlinarith
        have hlb : -(2 * Real.pi) < 0.5 * Real.arccos d := by
          have := Real.arccos_nonneg d
          nlinarith
        exact (Real.cos_eq_one_iff_of_lt_of_lt hlb hub).mp hcone
      have : Real.arccos d = 0 := by linarith
      have := Real.arccos_eq_zero.mp this
      linarith
  · intro h
    rw [h]
    exact mitre_scale_one

lemma seg_make_offset_line {s : Seg} {l : Option Line2} {off : ℝ} {last : Option Line2} :
    seg_make_offset { s with line := l } off last = seg_make_offset s off last := rfl

lemma offset_pass_eq_map (segs : List Seg) (off : ℝ) : ∀ last,
    offset_pass segs off last =
      segs.map (fun s => ⟨seg_make_offset s off none, s.dz, s.z0⟩) := by
  induction segs with
  | nil => intro last; rfl
  | cons s rest ih =>
    intro last
    simp only [offset_pass, List.map_cons, ih]
    rfl

lemma set_offset_aux_eq_map (segs : List Seg) (off : ℝ) : ∀ last,
    set_offset_aux segs off last =
      segs.map (fun s => { s with line := some (seg_make_offset s off none) }) := by
  induction segs with
  | nil => intro last; rfl
  | cons s rest ih =>
    intro last
    simp only [set_offset_aux, List.map_cons, ih]
    rfl

lemma set_offset_eq_map (segs : List Seg) (off : ℝ) :
    set_offset segs off =
      segs.map (fun s => { s with line := some (seg_make_offset s off none) }) :=
  set_offset_aux_eq_map segs off none

lemma make_sections_cons (f : OSeg) (rest : List OSeg) :
    make_sections (f :: rest) =
      (if f.line.length = 0 then none
       else some
         (decide ((f.line.p - (((rest.getLastD f).line).p + ((rest.getLastD f).line).v)).len
            < 0.0001),
          (⟨if decide ((f.line.p -
                (((rest.getLastD f).line).p + ((rest.getLastD f).line).v)).len < 0.0001)
              then ((rest.getLastD f).line).sized_normal 1 1
              else f.line.sized_normal 0 1,
            f.dz / f.line.length, f.z0⟩ : Section) ::
          (f :: rest).filterMap (fun g =>
            if g.line.length = 0 then none
            else some ⟨g.line.sized_normal 1 1, g.dz / g.line.length, g.z0 + g.dz⟩))) := rfl

lemma secDir_cons_succ (σ : Section) (σs : List Section) (s : ℕ) :
    secDir (σ :: σs) (s + 1) = secDir σs s := rfl

lemma secDir_cons_zero (σ0 : Section) (σs : List Section) :
    secDir (σ0 :: σs) 0 = σ0.n.v.normalized := rfl

lemma frameOut_cons_succ (σ τ : Section) (σs : List Section) (s : ℕ) :
    frameOut (σ :: τ :: σs) (s + 1) = frameOut (τ :: σs) s := by
  rw [frameOut, frameOut]
  have hiff : s + 1 + 1 < (σ :: τ :: σs).length ↔ s + 1 < (τ :: σs).length := by
    simp only [List.length_cons]
    omega
  by_cases h : s + 1 < (τ :: σs).length
  · rw [if_pos (hiff.mpr h), if_pos h]
    rfl
  · rw [if_neg (fun hc => h (hiff.mp hc)), if_neg h]
    rfl

lemma sweep_loop_run (profile : List Vec2) (z : ℝ) (cp : Bool) :
    ∀ (secs : List Section) (sec : Section) (p0 v0 : Vec2),
      sweep_loop profile z cp (sec :: secs) false p0 v0 (some v0) =
        some (sweep_spec profile z cp (sec :: secs) v0, uv_spec (sec :: secs) p0) := by
  intro secs
  induction secs with
  | nil =>
    intro sec p0 v0
    cases cp <;> simp [sweep_loop, sweep_spec, uv_spec]
  | cons next rest2 ih =>
    intro sec p0 v0
    simp only [sweep_loop, ih, sweep_spec, uv_spec]
    simp

lemma sweep_loop_top (profile : List Vec2) (z : ℝ) (cp : Bool) (σ0 σ1 : Section)
    (rest : List Section) (p0 v0 : Vec2) (v1s : Option Vec2) :
    sweep_loop profile z cp (σ0 :: σ1 :: rest) true p0 v0 v1s =
      some (sweep_spec profile z cp (σ0 :: σ1 :: rest) v0,
            uv_spec (σ1 :: rest) σ0.n.p) := by
  simp only [sweep_loop, sweep_loop_run, sweep_spec]
  simp

lemma sweep_verts_length (profile : List Vec2) (z : ℝ) (sec : Section) (v0 v1 : Vec2) :
    (sweep_verts profile z sec v0 v1).length = profile.length := by
  simp [sweep_verts]

lemma sweep_spec_length (profile : List Vec2) (z : ℝ) (cp : Bool) :
    ∀ (σs : List Section) (v0 : Vec2),
      (sweep_spec profile z cp σs v0).length =
        profile.length * (if cp then σs.length - 1 else σs.length)
  | [], v0 => by cases cp <;> simp [sweep_spec]
  | [sec], v0 => by
    cases cp <;> simp [sweep_spec, sweep_verts_length]
  | sec :: next :: rest, v0 => by
    have ih := sweep_spec_length profile z cp (next :: rest) next.n.v.normalized
    cases cp <;> simp [sweep_spec, sweep_verts_length, ih] <;> ring

lemma sweep_spec_flatMap (profile : List Vec2) (z : ℝ) (cp : Bool) :
    ∀ (σs : List Section), σs ≠ [] →
      sweep_spec profile z cp σs (secDir σs 0) =
        (List.range (if cp then σs.length - 1 else σs.length)).flatMap (fun s =>
          sweep_verts profile z (σs.getD s defSec) (secDir σs s) (frameOut σs s))
  | [], h => absurd rfl h
  | [sec], _ => by
    cases cp
    · have h1 : List.range 1 = [0] := rfl
      simp only [sweep_spec, List.length_cons, List.length_nil, if_false, Bool.false_eq_true]
      simp only [h1, List.flatMap_cons, List.flatMap_nil, List.append_nil]
      have hout : frameOut [sec] 0 = secDir [sec] 0 := by
        rw [frameOut, if_neg (by simp)]
      rw [hout]
      rfl
    · simp [sweep_spec]
  | σ :: τ :: rest, _ => by
    have ih := sweep_spec_flatMap profile z cp (τ :: rest) (by simp)
    have hm : (if cp = true then (σ :: τ :: rest).length - 1 else (σ :: τ :: rest).length) =
        (if cp = true then (τ :: rest).length - 1 else (τ :: rest).length) + 1 := by
      cases cp <;> simp
    have hv0 : secDir (τ :: rest) 0 = τ.n.v.normalized := rfl
    rw [sweep_spec, hm, List.range_succ_eq_map, List.flatMap_cons]
    have hhead : sweep_verts profile z ((σ :: τ :: rest).getD 0 defSec)
        (secDir (σ :: τ :: rest) 0) (frameOut (σ :: τ :: rest) 0) =
        sweep_verts profile z σ (secDir (σ :: τ :: rest) 0) τ.n.v.normalized := by
      have : frameOut (σ :: τ :: rest) 0 = τ.n.v.normalized := by
        rw [frameOut, if_pos (by simp)]
        rfl
      rw [this]
      rfl
    have htail : ∀ s : ℕ,
        sweep_verts profile z ((σ :: τ :: rest).getD (s + 1) defSec)
          (secDir (σ :: τ :: rest) (s + 1)) (frameOut (σ :: τ :: rest) (s + 1)) =
        sweep_verts profile z ((τ :: rest).getD s defSec)
          (secDir (τ :: rest) s) (frameOut (τ :: rest) s) := by
      intro s
      rw [secDir_cons_succ, frameOut_cons_succ]
      rfl
    rw [List.flatMap_map]
    simp only [htail]
    rw [hhead, ← hv0, ih]

lemma filterMap_sections_length (off : ℝ) : ∀ (segs : List Seg) (last : Option Line2),
    ((offset_pass segs off last).filterMap (fun g =>
      if g.line.length = 0 then none
      else some (⟨g.line.sized_normal 1 1, g.dz / g.line.length, g.z0 + g.dz⟩ : Section))).length
      = nonzeroCount segs := by
  intro segs
  induction segs with
  | nil => intro last; rfl
  | cons s rest ih =>
    intro last
    simp only [offset_pass, List.filterMap_cons]
    by_cases h : s.v.len = 0
    · rw [if_pos (show Line2.length (seg_make_offset s off last) = 0 from h)]
      rw [nonzeroCount, if_pos h, ih]
      omega
    · rw [if_neg (show ¬Line2.length (seg_make_offset s off last) = 0 from h)]
      rw [List.length_cons, nonzeroCount, if_neg h, ih]
      omega

lemma make_sections_some {f : OSeg} {rest : List OSeg} {cp : Bool} {σs : List Section}
    (h : make_sections (f :: rest) = some (cp, σs)) :
    f.line.length ≠ 0 ∧
    cp = decide ((f.line.p - (((rest.getLastD f).line).p + ((rest.getLastD f).line).v)).len
          < 0.0001) ∧
    σs = (⟨if cp then ((rest.getLastD f).line).sized_normal 1 1
             else f.line.sized_normal 0 1,
           f.dz / f.line.length, f.z0⟩ : Section) ::
         (⟨f.line.sized_normal 1 1, f.dz / f.line.length, f.z0 + f.dz⟩ : Section) ::
         rest.filterMap (fun g =>
           if g.line.length = 0 then none
           else some ⟨g.line.sized_normal 1 1, g.dz / g.line.length, g.z0 + g.dz⟩) := by
  rw [make_sections_cons] at h
  by_cases h0 : f.line.length = 0
  · rw [if_pos h0] at h
    cases h
  · rw [if_neg h0, Option.some_inj] at h
    injection h with h1 h2
    subst h1
    subst h2
    refine ⟨h0, rfl, ?_⟩
    rw [List.filterMap_cons_some (by simp only [if_neg h0]; rfl)]

lemma make_profile_eq (segs : List Seg) (profile : List Vec2) (idmat : ℕ)
    (x z e : ℝ) (c : Bool) (b : Buffers) (f : OSeg) (rest : List OSeg)
    (cp : Bool) (σ0 σ1 : Section) (σrest : List Section)
    (hos : offset_pass segs x none = f :: rest)
    (hms : make_sections (f :: rest) = some (cp, σ0 :: σ1 :: σrest)) :
    make_profile segs profile idmat x z e c b =
      some ⟨b.verts ++ sweep_spec profile z cp (σ0 :: σ1 :: σrest) σ0.n.v.normalized,
            b.faces ++ lofter_faces profile.length
              (if cp then (σ0 :: σ1 :: σrest).length - 1 else (σ0 :: σ1 :: σrest).length)
              b.verts.length c cp,
            b.matids ++ lofter_mat profile.length
              (if cp then (σ0 :: σ1 :: σrest).length - 1 else (σ0 :: σ1 :: σrest).length)
              c cp idmat,
            b.uvs ++ lofter_uvs (uv_spec (σ1 :: σrest) σ0.n.p) profile.length
              (if cp then (σ0 :: σ1 :: σrest).length - 1 else (σ0 :: σ1 :: σrest).length)
              c cp⟩ := by
  simp only [make_profile, hos, hms, sweep_loop_top]

lemma make_sections_succeeds (f : OSeg) (rest : List OSeg) (h0 : f.line.length ≠ 0) :
    make_sections (f :: rest) =
      some (decide ((f.line.p - (((rest.getLastD f).line).p + ((rest.getLastD f).line).v)).len
              < 0.0001),
            (⟨if decide ((f.line.p -
                  (((rest.getLastD f).line).p + ((rest.getLastD f).line).v)).len < 0.0001)
                then ((rest.getLastD f).line).sized_normal 1 1
                else f.line.sized_normal 0 1,
              f.dz / f.line.length, f.z0⟩ : Section) ::
            (⟨f.line.sized_normal 1 1, f.dz / f.line.length, f.z0 + f.dz⟩ : Section) ::
            rest.filterMap (fun g =>
              if g.line.length = 0 then none
              else some ⟨g.line.sized_normal 1 1, g.dz / g.line.length, g.z0 + g.dz⟩)) := by
  rw [make_sections_cons, if_neg h0,
    List.filterMap_cons_some (by simp only [if_neg h0]; rfl)]

lemma closesWithin_iff (segs : List Seg) (x : ℝ) (f : OSeg) (rest : List OSeg)
    (hos : offset_pass segs x none = f :: rest) :
    closesWithin segs x ↔
      (f.line.p - (((rest.getLastD f).line).p + ((rest.getLastD f).line).v)).len < 0.0001 := by
  rw [closesWithin, hos]

lemma make_profile_append (segs : List Seg) (profile : List Vec2) (idmat : ℕ)
    (x z e : ℝ) (c : Bool) (b out : Buffers)
    (h : make_profile segs profile idmat x z e c b = some out) :
    ∃ dv df dm du, out = ⟨b.verts ++ dv, b.faces ++ df, b.matids ++ dm, b.uvs ++ du⟩ := by
  unfold make_profile at h
  split at h
  · obtain rfl := Option.some_inj.mp h
    exact ⟨[], [], [], [], by simp⟩
  · split at h
    · exact absurd h (by simp)
    · split at h
      · obtain rfl := Option.some_inj.mp h
        exact ⟨[], [], [], [], by simp⟩
      · split at h
        · exact absurd h (by simp)
        · obtain heq := Option.some_inj.mp h
          exact ⟨_, _, _, _, heq.symm⟩

lemma one_smul_vec (v : Vec2) : (1 : ℝ) • v = v := by
  ext <;> simp

lemma tail_sections_unit (rest : List OSeg) (sec : Section)
    (h : sec ∈ rest.filterMap (fun g =>
      if g.line.length = 0 then none
      else some ⟨g.line.sized_normal 1 1, g.dz / g.line.length, g.z0 + g.dz⟩)) :
    sec.n.v.normalized.len = 1 := by
  rw [List.mem_filterMap] at h
  obtain ⟨g, _, heq⟩ := h
  by_cases h0 : g.line.length = 0
  · rw [if_pos h0] at heq
    cases heq
  · rw [if_neg h0] at heq
    obtain rfl := Option.some_inj.mp heq
    show ((1 : ℝ) • g.line.v.normalized).normalized.len = 1
    rw [one_smul_vec, Vec2.normalized_idem]
    exact Vec2.normalized_len h0

lemma make_profile_verts_len (segs : List Seg) (profile : List Vec2) (idmat : ℕ)
    (x z e : ℝ) (c : Bool) (b out : Buffers) (cp : Bool) (σs : List Section)
    (hms : make_sections (offset_pass segs x none) = some (cp, σs))
    (hmp : make_profile segs profile idmat x z e c b = some out) :
    out.verts.length = b.verts.length +
      profile.length * (if cp then σs.length - 1 else σs.length) := by
  rcases hos : offset_pass segs x none with _ | ⟨f, rest⟩
  · rw [hos] at hms
    cases hms
  · rw [hos] at hms
    obtain ⟨h0, hcp, hσ⟩ := make_sections_some hms
    subst hσ
    have hmp2 := make_profile_eq segs profile idmat x z e c b f rest cp _ _ _ hos hms
    rw [hmp2] at hmp
    obtain rfl := Option.some_inj.mp hmp
    simp only [List.length_append, sweep_spec_length]

lemma sections_length_eq (s0 : Seg) (srest : List Seg) (x : ℝ) (cp : Bool)
    (σs : List Section)
    (hms : make_sections (offset_pass (s0 :: srest) x none) = some (cp, σs)) :
    σs.length = 2 + nonzeroCount srest ∧ s0.v.len ≠ 0 := by
  have hos : offset_pass (s0 :: srest) x none =
      (⟨seg_make_offset s0 x none, s0.dz, s0.z0⟩ : OSeg) ::
        offset_pass srest x (some (seg_make_offset s0 x none)) := rfl
  rw [hos] at hms
  obtain ⟨h0, hcp, hσ⟩ := make_sections_some hms
  subst hσ
  constructor
  · simp only [List.length_cons, filterMap_sections_length]
    omega
  · exact h0

lemma make_profile_succeeds (s0 : Seg) (srest : List Seg) (profile : List Vec2)
    (idmat : ℕ) (x z e : ℝ) (c : Bool) (b : Buffers) (h0 : s0.v.len ≠ 0) :
    ∃ out, make_profile (s0 :: srest) profile idmat x z e c b = some out := by
  have hos : offset_pass (s0 :: srest) x none =
      (⟨seg_make_offset s0 x none, s0.dz, s0.z0⟩ : OSeg) ::
        offset_pass srest x (some (seg_make_offset s0 x none)) := rfl
  have hlen : (⟨seg_make_offset s0 x none, s0.dz, s0.z0⟩ : OSeg).line.length ≠ 0 := h0
  have hms := make_sections_succeeds (⟨seg_make_offset s0 x none, s0.dz, s0.z0⟩ : OSeg)
    (offset_pass srest x (some (seg_make_offset s0 x none))) hlen
  exact ⟨_, make_profile_eq (s0 :: srest) profile idmat x z e c b _ _ _ _ _ _ hos hms⟩

lemma closed_flag_iff (segs : List Seg) (x : ℝ) (cp : Bool) (σs : List Section)
    (hms : make_sections (offset_pass segs x none) = some (cp, σs)) :
    cp = true ↔ closesWithin segs x := by
  rcases hos : offset_pass segs x none with _ | ⟨f, rest⟩
  · rw [hos] at hms
    cases hms
  · rw [hos] at hms
    obtain ⟨h0, hcp, hσ⟩ := make_sections_some hms
    rw [closesWithin_iff segs x f rest hos, hcp]
    simp

lemma frame_count_verts (segs : List Seg) (profile : List Vec2) (idmat : ℕ)
    (x z e : ℝ) (c : Bool) (b out : Buffers) (m : ℕ)
    (hfc : frame_count segs x = some m)
    (hmp : make_profile segs profile idmat x z e c b = some out) :
    out.verts.length = b.verts.length + profile.length * m := by
  rw [frame_count] at hfc
  rcases hmk : make_sections (offset_pass segs x none) with _ | ⟨cp, σs⟩
  · rw [hmk] at hfc
    cases hfc
  · rw [hmk] at hfc
    simp only [Option.map_some'] at hfc
    have hm := Option.some_inj.mp hfc
    rw [make_profile_verts_len segs profile idmat x z e c b out cp σs hmk hmp, hm]

lemma cons_tail_unit (f : OSeg) (rest : List OSeg) (h0 : f.line.length ≠ 0)
    (sec : Section)
    (h : sec ∈ (⟨f.line.sized_normal 1 1, f.dz / f.line.length, f.z0 + f.dz⟩ : Section) ::
          rest.filterMap (fun g =>
            if g.line.length = 0 then none
            else some ⟨g.line.sized_normal 1 1, g.dz / g.line.length, g.z0 + g.dz⟩)) :
    sec.n.v.normalized.len = 1 := by
  rcases List.mem_cons.mp h with rfl | hmem
  · show ((1 : ℝ) • f.line.v.normalized).normalized.len = 1
    rw [one_smul_vec, Vec2.normalized_idem]
    exact Vec2.normalized_len h0
  · exact tail_sections_unit rest sec hmem

lemma frameDir_endpoints (σs : List Section) (h2 : 2 ≤ σs.length)
    (hall : ∀ s, s < σs.length → (secDir σs s).len = 1)
    (h01 : secDir σs 0 = secDir σs 1) :
    frameDir σs 0 = secDir σs 0 ∧
    frameDir σs (σs.length - 1) = secDir σs (σs.length - 1) := by
  constructor
  · have hlt : 0 + 1 < σs.length := by omega
    unfold frameDir frameOut
    rw [if_pos hlt]
    show (secDir σs 0 + secDir σs (0 + 1)).normalized = secDir σs 0
    have h01' : secDir σs (0 + 1) = secDir σs 0 := h01.symm
    rw [h01']
    exact Vec2.double_normalized (hall 0 (by omega))
  · have hnlt : ¬(σs.length - 1 + 1 < σs.length) := by omega
    unfold frameDir frameOut
    rw [if_neg hnlt]
    exact Vec2.double_normalized (hall (σs.length - 1) (by omega))

/-- C5: for each section frame `s` and each profile point `(px, py)` the
sweep emits a vertex whose planar position is
`frame.position + mitreScale * px * dir` and whose z coordinate is the
frame's elevation `+ py + zOffset`, where `dir` is the normalized sum of
the incoming and outgoing unit directions at the joint (the angle
bisector); and at the two endpoints of an open path `dir` equals the
adjacent segment's own unit direction. -/
theorem make_profile_vertex_positions (segs : List Seg) (profile : List Vec2)
    (idmat : ℕ) (x z e : ℝ) (c : Bool) (b out : Buffers) (cp : Bool) (σs : List Section)
    (hms : make_sections (offset_pass segs x none) = some (cp, σs))
    (hmp : make_profile segs profile idmat x z e c b = some out) :
    out.verts = b.verts ++
      (List.range (if cp then σs.length - 1 else σs.length)).flatMap (fun s =>
        profile.map (fun p =>
          (⟨(framePos σs s).x + frameScale σs s * p.x * (frameDir σs s).x,
            (framePos σs s).y + frameScale σs s * p.x * (frameDir σs s).y,
            frameZ σs s + p.y + z⟩ : Vec3)))
    ∧ (cp = false →
        frameDir σs 0 = secDir σs 0 ∧
        frameDir σs (σs.length - 1) = secDir σs (σs.length - 1)) := by
  rcases hos : offset_pass segs x none with _ | ⟨f, rest⟩
  · rw [hos] at hms
    cases hms
  · rw [hos] at hms
    obtain ⟨h0, hcp, hσ⟩ := make_sections_some hms
    subst hσ
    have hmp2 := make_profile_eq segs profile idmat x z e c b f rest cp _ _ _ hos hms
    rw [hmp2] at hmp
    obtain rfl := Option.some_inj.mp hmp
    constructor
    · exact congrArg (fun l => b.verts ++ l)
        (sweep_spec_flatMap profile z cp _ (by simp))
    · intro hcpf
      subst hcpf
      apply frameDir_endpoints
      · simp only [List.length_cons]
        omega
      · intro s hs
        cases s with
        | zero =>
          show ((1 : ℝ) • f.line.v.normalized).normalized.len = 1
          rw [one_smul_vec, Vec2.normalized_idem]
          exact Vec2.normalized_len h0
        | succ n =>
          show ((List.getD _ (n + 1) defSec).n.v).normalized.len = 1
          rw [List.getD_cons_succ]
          apply cons_tail_unit f rest h0
          rw [List.getD_eq_getElem _ _
            (by simp only [List.length_cons] at hs ⊢; omega)]
          exact List.getElem_mem _
      · show ((1 : ℝ) • f.line.v.normalized).normalized =
          ((1 : ℝ) • f.line.v.normalized).normalized
        rfl

lemma offset_pass_map_line (g : Seg → Option Line2) (off : ℝ) :
    ∀ (segs : List Seg) (last : Option Line2),
      offset_pass (segs.map (fun s => { s with line := g s })) off last =
        offset_pass segs off last := by
  intro segs
  induction segs with
  | nil => intro last; rfl
  | cons s rest ih =>
    intro last
    simp only [List.map_cons, offset_pass, ih]
    rfl

open Classical in
/-- C1 (amended): for every chain with at least one segment whose first
segment has nonzero length, `make_profile` classifies the path as closed
iff the distance between the first offset line's origin and the last
offset line's endpoint is below 1e-4, and then emits exactly
`N_nonzero` section frames (vertex rings) for a closed path and
`N_nonzero + 1` for an open path, where `N_nonzero` counts the segments of
nonzero length.  (The original claim, quantified over all chains, fails
when the first segment has zero length: the section builder then raises
ZeroDivisionError and emits nothing — see the counterexample.) -/
theorem make_profile_frame_count (s0 : Seg) (srest : List Seg) (profile : List Vec2)
    (idmat : ℕ) (x z e : ℝ) (c : Bool) (b : Buffers) (h0 : s0.v.len ≠ 0) :
    ∃ out, make_profile (s0 :: srest) profile idmat x z e c b = some out ∧
      out.verts.length = b.verts.length + profile.length *
        (if closesWithin (s0 :: srest) x then nonzeroCount (s0 :: srest)
         else nonzeroCount (s0 :: srest) + 1) := by
  have hos : offset_pass (s0 :: srest) x none =
      (⟨seg_make_offset s0 x none, s0.dz, s0.z0⟩ : OSeg) ::
        offset_pass srest x (some (seg_make_offset s0 x none)) := rfl
  have hlen : (⟨seg_make_offset s0 x none, s0.dz, s0.z0⟩ : OSeg).line.length ≠ 0 := h0
  have hms := make_sections_succeeds (⟨seg_make_offset s0 x none, s0.dz, s0.z0⟩ : OSeg)
    (offset_pass srest x (some (seg_make_offset s0 x none))) hlen
  rw [← hos] at hms
  obtain ⟨cpv, σsv, hms2⟩ : ∃ cp σs,
      make_sections (offset_pass (s0 :: srest) x none) = some (cp, σs) := ⟨_, _, hms⟩
  obtain ⟨out, hmp⟩ := make_profile_succeeds s0 srest profile idmat x z e c b h0
  refine ⟨out, hmp, ?_⟩
  rw [make_profile_verts_len (s0 :: srest) profile idmat x z e c b out cpv σsv hms2 hmp]
  have hsl := sections_length_eq s0 srest x cpv σsv hms2
  have hfl := closed_flag_iff (s0 :: srest) x cpv σsv hms2
  have hnz : nonzeroCount (s0 :: srest) = 1 + nonzeroCount srest := by
    simp only [nonzeroCount, if_neg h0]
  have hite : (if cpv = true then σsv.length - 1 else σsv.length) =
      (if closesWithin (s0 :: srest) x then nonzeroCount (s0 :: srest)
       else nonzeroCount (s0 :: srest) + 1) := by
    by_cases hcl : closesWithin (s0 :: srest) x
    · rw [if_pos (hfl.mpr hcl), if_pos hcl, hsl.1, hnz]
      omega
    · rw [if_neg (fun hc => hcl (hfl.mp hc)), if_neg hcl, hsl.1, hnz]
      omega
  rw [hite]

lemma set_offset_idem_core (segs : List Seg) (offset : ℝ) :
    set_offset (set_offset segs offset) offset = set_offset segs offset := by
  rw [set_offset_eq_map, set_offset_eq_map, List.map_map]
  rfl

lemma wrap_eq_add (da : ℝ) : ∃ k : ℤ, wrap da = da + 2 * Real.pi * k := by
  simp only [wrap]
  by_cases h1 : Real.pi < da
  · rw [if_pos h1]
    by_cases h2 : da - 2 * Real.pi < -Real.pi
    · rw [if_pos h2]
      exact ⟨0, by push_cast; ring⟩
    · rw [if_neg h2]
      exact ⟨-1, by push_cast; ring⟩
  · rw [if_neg h1]
    by_cases h2 : da < -Real.pi
    · rw [if_pos h2]
      exact ⟨1, by push_cast; ring⟩
    · rw [if_neg h2]
      exact ⟨0, by push_cast; ring⟩

lemma from_spline_loop_spec : ∀ (rest : List Vec3) (p0 : Vec3) (acc : ℝ),
    (from_spline_loop rest p0 acc).length = rest.length ∧
    ∀ i, i < rest.length →
      ((from_spline_loop rest p0 acc).getD i defPart).length =
          Real.sqrt (((rest.getD i defV3).x - ((p0 :: rest).getD i defV3).x) ^ 2 +
                     ((rest.getD i defV3).y - ((p0 :: rest).getD i defV3).y) ^ 2) ∧
      ((from_spline_loop rest p0 acc).getD i defPart).dz =
          (rest.getD i defV3).z - ((p0 :: rest).getD i defV3).z ∧
      ∃ k : ℤ, ((from_spline_loop rest p0 acc).getD i defPart).a0 =
          atan2 ((rest.getD i defV3).y - ((p0 :: rest).getD i defV3).y)
                ((rest.getD i defV3).x - ((p0 :: rest).getD i defV3).x) -
          (if i = 0 then acc
           else atan2 ((rest.getD (i - 1) defV3).y - ((p0 :: rest).getD (i - 1) defV3).y)
                      ((rest.getD (i - 1) defV3).x -
                        ((p0 :: rest).getD (i - 1) defV3).x)) +
          2 * Real.pi * k
  | [], p0, acc => by
    refine ⟨rfl, ?_⟩
    intro i hi
    cases hi
  | q :: rest2, p0, acc => by
    have ih := from_spline_loop_spec rest2 q
      (acc + wrap (atan2 (q - p0).y (q - p0).x - acc))
    refine ⟨by simp only [from_spline_loop, List.length_cons, ih.1], ?_⟩
    intro i hi
    cases i with
    | zero =>
      refine ⟨rfl, rfl, ?_⟩
      obtain ⟨k0, hk0⟩ := wrap_eq_add (atan2 (q - p0).y (q - p0).x - acc)
      refine ⟨k0, ?_⟩
      show wrap (atan2 (q - p0).y (q - p0).x - acc) = _
      rw [hk0, if_pos rfl]
      simp only [List.getD_cons_zero, Vec3.x_sub, Vec3.y_sub]
    | succ j =>
      have hj : j < rest2.length := by
        simpa using hi
      obtain ⟨hlen, hdz, k1, hk1⟩ := ih.2 j hj
      have hget : (from_spline_loop (q :: rest2) p0 acc).getD (j + 1) defPart =
          (from_spline_loop rest2 q
            (acc + wrap (atan2 (q - p0).y (q - p0).x - acc))).getD j defPart := by
        show (_ :: from_spline_loop rest2 q _).getD (j + 1) defPart = _
        rw [List.getD_cons_succ]
      cases j with
      | zero =>
        refine ⟨by rw [hget]; exact hlen, by rw [hget]; exact hdz, ?_⟩
        obtain ⟨k0, hk0⟩ := wrap_eq_add (atan2 (q - p0).y (q - p0).x - acc)
        refine ⟨k1 - k0, ?_⟩
        rw [hget, hk1, hk0, if_pos rfl, if_neg (by omega)]
        simp only [Nat.add_sub_cancel, List.getD_cons_zero, List.getD_cons_succ,
          Vec3.x_sub, Vec3.y_sub]
        push_cast
        ring
      | succ n =>
        refine ⟨by rw [hget]; exact hlen, by rw [hget]; exact hdz, ?_⟩
        refine ⟨k1, ?_⟩
        rw [hget, hk1, if_neg (by omega), if_neg (by omega)]
        rfl

lemma len_mk (a b : ℝ) : Vec2.len ⟨a, b⟩ = Real.sqrt (a ^ 2 + b ^ 2) := rfl

lemma smul_mk (r a b : ℝ) : r • (⟨a, b⟩ : Vec2) = ⟨r * a, r * b⟩ := rfl

lemma add_mk (a b c d : ℝ) : (⟨a, b⟩ : Vec2) + ⟨c, d⟩ = ⟨a + c, b + d⟩ := rfl

lemma sub_mk (a b c d : ℝ) : (⟨a, b⟩ : Vec2) - ⟨c, d⟩ = ⟨a - c, b - d⟩ := rfl

lemma len_zero_vec : Vec2.len ⟨0, 0⟩ = 0 := by
  rw [len_mk]
  norm_num

lemma normalized_zero_vec : Vec2.normalized ⟨0, 0⟩ = ⟨0, 0⟩ := by
  rw [Vec2.normalized, if_pos len_zero_vec]

lemma normalized_eval {a b l : ℝ} (hl : 0 < l) (h : a ^ 2 + b ^ 2 = l ^ 2) :
    Vec2.normalized ⟨a, b⟩ = ⟨a / l, b / l⟩ := by
  have hlen : Vec2.len ⟨a, b⟩ = l := by
    rw [len_mk, h]
    exact Real.sqrt_sq hl.le
  rw [Vec2.normalized, if_neg (by rw [hlen]; exact hl.ne'), hlen]

lemma len_eval {a b l : ℝ} (hl : 0 ≤ l) (h : a ^ 2 + b ^ 2 = l ^ 2) :
    Vec2.len ⟨a, b⟩ = l := by
  rw [len_mk, h]
  exact Real.sqrt_sq hl

lemma rot_zero (v : Vec2) : rot 0 v = v := by
  rw [rot]
  ext <;> simp

lemma seg_make_offset_zero (s : Seg) (last : Option Line2) :
    seg_make_offset s 0 last = ⟨s.p, s.v⟩ := by
  rw [seg_make_offset]
  congr 1
  ext <;> simp

lemma normalized_unit_x {L : ℝ} (hL : 0 < L) : Vec2.normalized ⟨L, 0⟩ = ⟨1, 0⟩ := by
  rw [normalized_eval hL (by ring)]
  congr 1 <;> field_simp

lemma sized_normal_eval_t {L t : ℝ} (hL : 0 < L) :
    (⟨⟨0, 0⟩, ⟨L, 0⟩⟩ : Line2).sized_normal t 1 = ⟨⟨t * L, 0⟩, ⟨1, 0⟩⟩ := by
  rw [Line2.sized_normal, Line2.lerp]
  show (⟨(⟨0, 0⟩ : Vec2) + t • (⟨L, 0⟩ : Vec2), (1 : ℝ) • Vec2.normalized ⟨L, 0⟩⟩ : Line2) = _
  rw [normalized_unit_x hL, one_smul_vec, smul_mk, add_mk]
  norm_num

lemma single_offset_pass {L : ℝ} :
    offset_pass [(⟨⟨0, 0⟩, ⟨L, 0⟩, 0, 0, none⟩ : Seg)] 0 none =
      [(⟨⟨⟨0, 0⟩, ⟨L, 0⟩⟩, 0, 0⟩ : OSeg)] := by
  show ([(⟨seg_make_offset (⟨⟨0, 0⟩, ⟨L, 0⟩, 0, 0, none⟩ : Seg) 0 none, 0, 0⟩ : OSeg)] :
    List OSeg) = _
  rw [seg_make_offset_zero]

lemma single_not_closes {L : ℝ} (hL : 0 < L) (hbig : ¬(L < 0.0001)) :
    ¬ closesWithin [(⟨⟨0, 0⟩, ⟨L, 0⟩, 0, 0, none⟩ : Seg)] 0 := by
  rw [closesWithin_iff _ _ _ _ single_offset_pass]
  show ¬(((⟨0, 0⟩ : Vec2) - ((⟨0, 0⟩ : Vec2) + (⟨L, 0⟩ : Vec2))).len < 0.0001)
  rw [add_mk, sub_mk]
  norm_num
  rw [len_eval hL.le (by ring)]
  linarith [not_lt.mp hbig]

lemma single_seg_sections {L : ℝ} (hL : 0 < L) (hbig : ¬(L < 0.0001)) :
    make_sections (offset_pass [(⟨⟨0, 0⟩, ⟨L, 0⟩, 0, 0, none⟩ : Seg)] 0 none) =
      some (false,
        [⟨⟨⟨0, 0⟩, ⟨1, 0⟩⟩, 0, 0⟩, ⟨⟨⟨L, 0⟩, ⟨1, 0⟩⟩, 0, 0⟩]) := by
  rw [single_offset_pass]
  have hne : ((⟨⟨⟨0, 0⟩, ⟨L, 0⟩⟩, 0, 0⟩ : OSeg)).line.length ≠ 0 := by
    show Vec2.len ⟨L, 0⟩ ≠ 0
    rw [len_eval hL.le (by ring)]
    exact hL.ne'
  rw [make_sections_succeeds _ _ hne]
  have hcond : ¬(((⟨⟨⟨0, 0⟩, ⟨L, 0⟩⟩, 0, 0⟩ : OSeg)).line.p -
      (((List.getLastD [] (⟨⟨⟨0, 0⟩, ⟨L, 0⟩⟩, 0, 0⟩ : OSeg)).line).p +
       ((List.getLastD [] (⟨⟨⟨0, 0⟩, ⟨L, 0⟩⟩, 0, 0⟩ : OSeg)).line).v)).len < 0.0001 := by
    show ¬(((⟨0, 0⟩ : Vec2) - ((⟨0, 0⟩ : Vec2) + (⟨L, 0⟩ : Vec2))).len < 0.0001)
    rw [add_mk, sub_mk]
    norm_num
    rw [len_eval hL.le (by ring)]
    linarith [not_lt.mp hbig]
  rw [decide_eq_false hcond]
  have hz : ((⟨⟨⟨0, 0⟩, ⟨L, 0⟩⟩, 0, 0⟩ : OSeg)).dz /
      ((⟨⟨⟨0, 0⟩, ⟨L, 0⟩⟩, 0, 0⟩ : OSeg)).line.length = 0 := zero_div _
  simp only [List.filterMap_nil, Bool.false_eq_true, if_false]
  rw [Option.some_inj]
  refine congrArg (Prod.mk false) ?_
  have hs0 : ((⟨⟨⟨0, 0⟩, ⟨L, 0⟩⟩, 0, 0⟩ : OSeg)).line.sized_normal 0 1 =
      (⟨⟨0, 0⟩, ⟨1, 0⟩⟩ : Line2) := by
    show (⟨⟨0, 0⟩, ⟨L, 0⟩⟩ : Line2).sized_normal 0 1 = _
    rw [sized_normal_eval_t hL]
    norm_num
  have hs1 : ((⟨⟨⟨0, 0⟩, ⟨L, 0⟩⟩, 0, 0⟩ : OSeg)).line.sized_normal 1 1 =
      (⟨⟨L, 0⟩, ⟨1, 0⟩⟩ : Line2) := by
    show (⟨⟨0, 0⟩, ⟨L, 0⟩⟩ : Line2).sized_normal 1 1 = _
    rw [sized_normal_eval_t hL]
    norm_num
  rw [hs0, hs1, hz]
  norm_num

lemma sub_mk3 (a b c d e f : ℝ) :
    (⟨a, b, c⟩ : Vec3) - ⟨d, e, f⟩ = ⟨a - d, b - e, c - f⟩ := rfl

lemma atan2_x_pos {y x : ℝ} (hx : 0 < x) : atan2 y x = Real.arctan (y / x) := by
  rw [atan2, if_pos hx]

lemma atan2_x_neg_y_nonneg {y x : ℝ} (hx : x < 0) (hy : 0 ≤ y) :
    atan2 y x = Real.arctan (y / x) + Real.pi := by
  rw [atan2, if_neg (by linarith), if_pos hx, if_pos hy]

lemma atan2_x_neg_y_neg {y x : ℝ} (hx : x < 0) (hy : y < 0) :
    atan2 y x = Real.arctan (y / x) - Real.pi := by
  rw [atan2, if_neg (by linarith), if_pos hx, if_neg (by linarith)]

lemma atan2_y_pos {y : ℝ} (hy : 0 < y) : atan2 y 0 = Real.pi / 2 := by
  rw [atan2, if_neg (lt_irrefl 0), if_neg (lt_irrefl 0), if_pos hy]

lemma atan2_y_neg {y : ℝ} (hy : y < 0) : atan2 y 0 = -(Real.pi / 2) := by
  rw [atan2, if_neg (lt_irrefl 0), if_neg (lt_irrefl 0), if_neg (by linarith),
    if_pos hy]

lemma wrap_id {d : ℝ} (h1 : ¬(Real.pi < d)) (h2 : ¬(d < -Real.pi)) : wrap d = d := by
  simp only [wrap]
  rw [if_neg h1, if_neg h2]

lemma wrap_up {d : ℝ} (h1 : ¬(Real.pi < d)) (h2 : d < -Real.pi) :
    wrap d = d + 2 * Real.pi := by
  simp only [wrap]
  rw [if_neg h1, if_pos h2]

lemma wrap_down {d : ℝ} (h1 : Real.pi < d) (h2 : ¬(d - 2 * Real.pi < -Real.pi)) :
    wrap d = d - 2 * Real.pi := by
  simp only [wrap]
  rw [if_pos h1, if_neg h2]

lemma build_chain_one (L dz : ℝ) :
    build_chain [⟨L, 0, dz⟩] = [⟨⟨0, 0⟩, ⟨L, 0⟩, 0, 0, none⟩] := by
  have hv : (L : ℝ) • (⟨Real.cos 0, Real.sin 0⟩ : Vec2) = ⟨L, 0⟩ := by
    rw [Real.cos_zero, Real.sin_zero, smul_mk]
    norm_num
  show ([] ++ [(⟨⟨0, 0⟩, (L : ℝ) • (⟨Real.cos 0, Real.sin 0⟩ : Vec2), 0, 0, none⟩ : Seg)] :
    List Seg) = _
  rw [hv]
  rfl

lemma build_chain_zero_first :
    build_chain [⟨0, 0, 0⟩, ⟨2, 0, 0⟩] =
      [⟨⟨0, 0⟩, ⟨0, 0⟩, 0, 0, none⟩, ⟨⟨0, 0⟩, ⟨0, 0⟩, 0, 0, none⟩] := by
  have h1 : add_part [] ⟨0, 0, 0⟩ = [⟨⟨0, 0⟩, ⟨0, 0⟩, 0, 0, none⟩] := by
    have hv : (0 : ℝ) • (⟨Real.cos 0, Real.sin 0⟩ : Vec2) = ⟨0, 0⟩ := by
      rw [smul_mk]
      norm_num
    show ([] ++ [(⟨⟨0, 0⟩, (0 : ℝ) • (⟨Real.cos 0, Real.sin 0⟩ : Vec2), 0, 0, none⟩ : Seg)] :
      List Seg) = _
    rw [hv]
    rfl
  show add_part (add_part [] ⟨0, 0, 0⟩) ⟨2, 0, 0⟩ = _
  rw [h1]
  have hsm : straight_molding (⟨⟨0, 0⟩, ⟨0, 0⟩, 0, 0, none⟩ : Seg) 0 2 =
      ⟨⟨0, 0⟩, ⟨0, 0⟩, 0, 0, none⟩ := by
    rw [straight_molding]
    show (⟨(⟨0, 0⟩ : Vec2) + ⟨0, 0⟩, (2 : ℝ) • rot 0 (Vec2.normalized ⟨0, 0⟩),
      0, 0, none⟩ : Seg) = _
    rw [normalized_zero_vec, rot_zero, smul_mk, add_mk]
    norm_num
  show ([(⟨⟨0, 0⟩, ⟨0, 0⟩, 0, 0, none⟩ : Seg)] ++
    [straight_molding ⟨⟨0, 0⟩, ⟨0, 0⟩, 0, 0, none⟩ 0 2]) = _
  rw [hsm]
  rfl

lemma rot_pi_div_two (a b : ℝ) : rot (Real.pi / 2) ⟨a, b⟩ = ⟨-b, a⟩ := by
  rw [rot, Real.cos_pi_div_two, Real.sin_pi_div_two]
  congr 1 <;> ring

lemma square_chain :
    build_chain [⟨2, 0, 0⟩, ⟨2, Real.pi / 2, 0⟩, ⟨2, Real.pi / 2, 0⟩,
        ⟨2, Real.pi / 2, 0⟩] =
      [⟨⟨0, 0⟩, ⟨2, 0⟩, 0, 0, none⟩, ⟨⟨2, 0⟩, ⟨0, 2⟩, 0, 0, none⟩,
       ⟨⟨2, 2⟩, ⟨-2, 0⟩, 0, 0, none⟩, ⟨⟨0, 2⟩, ⟨0, -2⟩, 0, 0, none⟩] := by
  have step : build_chain [(⟨2, 0, 0⟩ : Part), ⟨2, Real.pi / 2, 0⟩, ⟨2, Real.pi / 2, 0⟩,
      ⟨2, Real.pi / 2, 0⟩] =
      add_part (add_part (add_part (build_chain [(⟨2, 0, 0⟩ : Part)])
        ⟨2, Real.pi / 2, 0⟩) ⟨2, Real.pi / 2, 0⟩) ⟨2, Real.pi / 2, 0⟩ := rfl
  rw [step, build_chain_one 2 0]
  have e2 : add_part [(⟨⟨0, 0⟩, ⟨2, 0⟩, 0, 0, none⟩ : Seg)] ⟨2, Real.pi / 2, 0⟩ =
      [⟨⟨0, 0⟩, ⟨2, 0⟩, 0, 0, none⟩, ⟨⟨2, 0⟩, ⟨0, 2⟩, 0, 0, none⟩] := by
    show ([(⟨⟨0, 0⟩, ⟨2, 0⟩, 0, 0, none⟩ : Seg)] ++
      [straight_molding ⟨⟨0, 0⟩, ⟨2, 0⟩, 0, 0, none⟩ (Real.pi / 2) 2]) = _
    have hsm : straight_molding (⟨⟨0, 0⟩, ⟨2, 0⟩, 0, 0, none⟩ : Seg) (Real.pi / 2) 2 =
        ⟨⟨2, 0⟩, ⟨0, 2⟩, 0, 0, none⟩ := by
      rw [straight_molding]
      show (⟨(⟨0, 0⟩ : Vec2) + ⟨2, 0⟩,
        (2 : ℝ) • rot (Real.pi / 2) (Vec2.normalized ⟨2, 0⟩), 0, 0, none⟩ : Seg) = _
      rw [normalized_unit_x (by norm_num : (0 : ℝ) < 2), rot_pi_div_two, smul_mk, add_mk]
      norm_num
    rw [hsm]
    rfl
  rw [e2]
  have e3 : add_part [(⟨⟨0, 0⟩, ⟨2, 0⟩, 0, 0, none⟩ : Seg),
      ⟨⟨2, 0⟩, ⟨0, 2⟩, 0, 0, none⟩] ⟨2, Real.pi / 2, 0⟩ =
      [⟨⟨0, 0⟩, ⟨2, 0⟩, 0, 0, none⟩, ⟨⟨2, 0⟩, ⟨0, 2⟩, 0, 0, none⟩,
       ⟨⟨2, 2⟩, ⟨-2, 0⟩, 0, 0, none⟩] := by
    show ([(⟨⟨0, 0⟩, ⟨2, 0⟩, 0, 0, none⟩ : Seg), ⟨⟨2, 0⟩, ⟨0, 2⟩, 0, 0, none⟩] ++
      [straight_molding ⟨⟨2, 0⟩, ⟨0, 2⟩, 0, 0, none⟩ (Real.pi / 2) 2]) = _
    have hsm : straight_molding (⟨⟨2, 0⟩, ⟨0, 2⟩, 0, 0, none⟩ : Seg) (Real.pi / 2) 2 =
        ⟨⟨2, 2⟩, ⟨-2, 0⟩, 0, 0, none⟩ := by
      rw [straight_molding]
      show (⟨(⟨2, 0⟩ : Vec2) + ⟨0, 2⟩,
        (2 : ℝ) • rot (Real.pi / 2) (Vec2.normalized ⟨0, 2⟩), 0, 0, none⟩ : Seg) = _
      rw [normalized_eval (by norm_num : (0 : ℝ) < 2) (by norm_num), rot_pi_div_two,
        smul_mk, add_mk]
      norm_num
    rw [hsm]
    rfl
  rw [e3]
  show ([(⟨⟨0, 0⟩, ⟨2, 0⟩, 0, 0, none⟩ : Seg), ⟨⟨2, 0⟩, ⟨0, 2⟩, 0, 0, none⟩,
    ⟨⟨2, 2⟩, ⟨-2, 0⟩, 0, 0, none⟩] ++
    [straight_molding ⟨⟨2, 2⟩, ⟨-2, 0⟩, 0, 0, none⟩ (Real.pi / 2) 2]) = _
  have hsm : straight_molding (⟨⟨2, 2⟩, ⟨-2, 0⟩, 0, 0, none⟩ : Seg) (Real.pi / 2) 2 =
      ⟨⟨0, 2⟩, ⟨0, -2⟩, 0, 0, none⟩ := by
    rw [straight_molding]
    show (⟨(⟨2, 2⟩ : Vec2) + ⟨-2, 0⟩,
      (2 : ℝ) • rot (Real.pi / 2) (Vec2.normalized ⟨-2, 0⟩), 0, 0, none⟩ : Seg) = _
    rw [normalized_eval (by norm_num : (0 : ℝ) < 2) (by norm_num), rot_pi_div_two,
      smul_mk, add_mk]
    norm_num
  rw [hsm]
  rfl

lemma square_parts :
    parts_from_pts squarePts =
      [⟨2, 0, 0⟩, ⟨2, Real.pi / 2, 0⟩, ⟨2, Real.pi / 2, 0⟩, ⟨2, Real.pi / 2, 0⟩] := by
  have hpi := Real.pi_pos
  have h40 : Real.sqrt 4 = 2 := sqrt_eval (by norm_num) (by norm_num)
  have ha1 : atan2 0 2 = 0 := by
    rw [atan2_x_pos (by norm_num : (0 : ℝ) < 2)]
    norm_num [Real.arctan_zero]
  have hw1 : wrap (atan2 0 2) = 0 := by
    rw [ha1]
    exact wrap_id (by linarith) (by linarith)
  have ha2 : atan2 2 0 = Real.pi / 2 := atan2_y_pos (by norm_num)
  have hw2 : wrap (atan2 2 0 - wrap (atan2 0 2)) = Real.pi / 2 := by
    rw [ha2, hw1, sub_zero]
    exact wrap_id (by linarith) (by linarith)
  have ha3 : atan2 0 (-2) = Real.pi := by
    rw [atan2_x_neg_y_nonneg (by norm_num) (le_refl 0)]
    norm_num [Real.arctan_zero]
  have hw3 : wrap (atan2 0 (-2) - (wrap (atan2 0 2) + wrap (atan2 2 0 - wrap (atan2 0 2)))) =
      Real.pi / 2 := by
    rw [hw2, hw1, ha3]
    rw [show Real.pi - (0 + Real.pi / 2) = Real.pi / 2 by ring]
    exact wrap_id (by linarith) (by linarith)
  have ha4 : atan2 (-2) 0 = -(Real.pi / 2) := atan2_y_neg (by norm_num)
  show from_spline_loop [⟨2, 0, 0⟩, ⟨2, 2, 0⟩, ⟨0, 2, 0⟩, ⟨0, 0, 0⟩] ⟨0, 0, 0⟩ 0 = _
  simp only [from_spline_loop, sub_mk3]
  norm_num
  refine ⟨⟨h40, hw1⟩, ⟨h40, hw2⟩, ⟨h40, hw3⟩, h40, ?_⟩
  have harg1 : ¬(Real.pi < -(Real.pi / 2) - (0 + Real.pi / 2 + Real.pi / 2)) := by linarith
  have harg2 : -(Real.pi / 2) - (0 + Real.pi / 2 + Real.pi / 2) < -Real.pi := by linarith
  rw [hw3, hw2, hw1, ha4, wrap_up harg1 harg2]
  ring

lemma drift_parts :
    parts_from_pts [⟨0, 0, 0⟩, ⟨-1, -1, 0⟩, ⟨-1, 0, 0⟩, ⟨0, -1, 0⟩, ⟨-1, -1, 0⟩] =
      [⟨Real.sqrt 2, -(3 * Real.pi / 4), 0⟩, ⟨1, -(3 * Real.pi / 4), 0⟩,
       ⟨Real.sqrt 2, -(3 * Real.pi / 4), 0⟩, ⟨1, 5 * Real.pi / 4, 0⟩] := by
  have hpi := Real.pi_pos
  have haA : atan2 (-1) (-1) = -(3 * Real.pi / 4) := by
    rw [atan2_x_neg_y_neg (by norm_num) (by norm_num),
      show ((-1 : ℝ) / (-1)) = 1 by norm_num, Real.arctan_one]
    ring
  have haB : atan2 1 0 = Real.pi / 2 := atan2_y_pos one_pos
  have haC : atan2 (-1) 1 = -(Real.pi / 4) := by
    rw [atan2_x_pos one_pos, show ((-1 : ℝ) / 1) = -1 by norm_num,
      show (-1 : ℝ) = -(1 : ℝ) from rfl, Real.arctan_neg, Real.arctan_one]
  have haD : atan2 0 (-1) = Real.pi := by
    rw [atan2_x_neg_y_nonneg (by norm_num) le_rfl]
    norm_num [Real.arctan_zero]
  have hwA : wrap (atan2 (-1) (-1)) = -(3 * Real.pi / 4) := by
    rw [haA]
    exact wrap_id (by linarith) (by linarith)
  have hwB : wrap (atan2 1 0 - wrap (atan2 (-1) (-1))) = -(3 * Real.pi / 4) := by
    rw [hwA, haB, show Real.pi / 2 - -(3 * Real.pi / 4) = 5 * Real.pi / 4 by ring]
    have h1 : Real.pi < 5 * Real.pi / 4 := by linarith
    have h2 : ¬(5 * Real.pi / 4 - 2 * Real.pi < -Real.pi) := by linarith
    rw [wrap_down h1 h2]
    ring
  have hwC : wrap (atan2 (-1) 1 -
      (wrap (atan2 (-1) (-1)) + wrap (atan2 1 0 - wrap (atan2 (-1) (-1))))) =
      -(3 * Real.pi / 4) := by
    rw [hwB, hwA, haC,
      show -(Real.pi / 4) - (-(3 * Real.pi / 4) + -(3 * Real.pi / 4)) = 5 * Real.pi / 4
        by ring]
    have h1 : Real.pi < 5 * Real.pi / 4 := by linarith
    have h2 : ¬(5 * Real.pi / 4 - 2 * Real.pi < -Real.pi) := by linarith
    rw [wrap_down h1 h2]
    ring
  have hwD : wrap (atan2 0 (-1) -
      (wrap (atan2 (-1) (-1)) + wrap (atan2 1 0 - wrap (atan2 (-1) (-1))) +
       wrap (atan2 (-1) 1 -
         (wrap (atan2 (-1) (-1)) + wrap (atan2 1 0 - wrap (atan2 (-1) (-1))))))) =
      5 * Real.pi / 4 := by
    rw [hwC, hwB, hwA, haD,
      show Real.pi - (-(3 * Real.pi / 4) + -(3 * Real.pi / 4) + -(3 * Real.pi / 4)) =
        13 * Real.pi / 4 by ring]
    have h1 : Real.pi < 13 * Real.pi / 4 := by linarith
    have h2 : ¬(13 * Real.pi / 4 - 2 * Real.pi < -Real.pi) := by linarith
    rw [wrap_down h1 h2]
    ring
  show from_spline_loop [⟨-1, -1, 0⟩, ⟨-1, 0, 0⟩, ⟨0, -1, 0⟩, ⟨-1, -1, 0⟩] ⟨0, 0, 0⟩ 0 = _
  simp only [from_spline_loop, sub_mk3]
  norm_num
  exact ⟨hwA, hwB, hwC, hwD⟩

lemma make_profile_eq2 (segs : List Seg) (profile : List Vec2) (idmat : ℕ)
    (x z e : ℝ) (c : Bool) (b : Buffers) (cp : Bool) (σ0 σ1 : Section)
    (σrest : List Section)
    (hms : make_sections (offset_pass segs x none) = some (cp, σ0 :: σ1 :: σrest)) :
    make_profile segs profile idmat x z e c b =
      some ⟨b.verts ++ sweep_spec profile z cp (σ0 :: σ1 :: σrest) σ0.n.v.normalized,
            b.faces ++ lofter_faces profile.length
              (if cp then (σ0 :: σ1 :: σrest).length - 1 else (σ0 :: σ1 :: σrest).length)
              b.verts.length c cp,
            b.matids ++ lofter_mat profile.length
              (if cp then (σ0 :: σ1 :: σrest).length - 1 else (σ0 :: σ1 :: σrest).length)
              c cp idmat,
            b.uvs ++ lofter_uvs (uv_spec (σ1 :: σrest) σ0.n.p) profile.length
              (if cp then (σ0 :: σ1 :: σrest).length - 1 else (σ0 :: σ1 :: σrest).length)
              c cp⟩ := by
  rcases hos : offset_pass segs x none with _ | ⟨f, rest⟩
  · rw [hos] at hms
    cases hms
  · rw [hos] at hms
    exact make_profile_eq segs profile idmat x z e c b f rest cp σ0 σ1 σrest hos hms

lemma flatMap_const_length {β : Type} (c : ℕ) (f : ℕ → List β)
    (h : ∀ i, (f i).length = c) : ∀ n, ((List.range n).flatMap f).length = n * c := by
  intro n
  induction n with
  | zero => simp
  | succ m ih =>
    rw [List.range_succ, List.flatMap_append, List.length_append, ih]
    simp only [List.flatMap_cons, List.flatMap_nil, List.append_nil, h]
    ring

lemma lofter_faces_length (k m off : ℕ) (cprof cpath : Bool) :
    (lofter_faces k m off cprof cpath).length =
      (if cpath then m else m - 1) * (if cprof then k else k - 1) := by
  simp only [lofter_faces]
  exact flatMap_const_length _ _ (fun i => by simp) _

lemma frame_count_single {L : ℝ} (hL : 0 < L) (hbig : ¬(L < 0.0001)) :
    frame_count [(⟨⟨0, 0⟩, ⟨L, 0⟩, 0, 0, none⟩ : Seg)] 0 = some 2 := by
  rw [frame_count, single_seg_sections hL hbig]
  rfl

lemma square_scenario :
    (make_profile (build_chain [⟨2, 0, 0⟩]) (square_profile 0.02 0.1) 7 0 0 0 true
        emptyB).map (fun o => (o.verts.length, o.faces.length, o.matids)) =
      some (8, 4, [7, 7, 7, 7]) := by
  rw [build_chain_one 2 0]
  have hms := single_seg_sections (by norm_num : (0 : ℝ) < 2) (by norm_num)
  rw [make_profile_eq2 [(⟨⟨0, 0⟩, ⟨2, 0⟩, 0, 0, none⟩ : Seg)] (square_profile 0.02 0.1) 7
    0 0 0 true emptyB false ⟨⟨⟨0, 0⟩, ⟨1, 0⟩⟩, 0, 0⟩ ⟨⟨⟨2, 0⟩, ⟨1, 0⟩⟩, 0, 0⟩ [] hms]
  rw [Option.map_some', Option.some_inj]
  have hverts : ((emptyB.verts ++ sweep_spec (square_profile 0.02 0.1) 0 false
      [⟨⟨⟨0, 0⟩, ⟨1, 0⟩⟩, 0, 0⟩, ⟨⟨⟨2, 0⟩, ⟨1, 0⟩⟩, 0, 0⟩]
      (⟨⟨⟨0, 0⟩, ⟨1, 0⟩⟩, 0, 0⟩ : Section).n.v.normalized) : List Vec3).length = 8 := by
    rw [List.length_append, sweep_spec_length]
    rfl
  have hfaces : ((emptyB.faces ++ lofter_faces (square_profile 0.02 0.1).length
      (if (false : Bool) then ([⟨⟨⟨0, 0⟩, ⟨1, 0⟩⟩, 0, 0⟩,
        ⟨⟨⟨2, 0⟩, ⟨1, 0⟩⟩, 0, 0⟩] : List Section).length - 1
       else ([⟨⟨⟨0, 0⟩, ⟨1, 0⟩⟩, 0, 0⟩, ⟨⟨⟨2, 0⟩, ⟨1, 0⟩⟩, 0, 0⟩] : List Section).length)
      emptyB.verts.length true false) : List (List ℕ)).length = 4 := by
    rw [List.length_append, lofter_faces_length]
    rfl
  rw [Prod.mk.injEq, Prod.mk.injEq]
  exact ⟨hverts, hfaces, rfl⟩

lemma add_part_append (segs : List Seg) (p : Part) : ∃ s, add_part segs p = segs ++ [s] := by
  cases h : segs.getLast? with
  | none =>
    exact ⟨⟨⟨0, 0⟩, p.length • (⟨Real.cos p.a0, Real.sin p.a0⟩ : Vec2), 0, 0, none⟩,
      by simp only [add_part, h]⟩
  | some s =>
    exact ⟨straight_molding s p.a0 p.length, by simp only [add_part, h]⟩

lemma foldl_add_part_head : ∀ (ps : List Part) (s : Seg) (acc : List Seg),
    ∃ r, List.foldl add_part (s :: acc) ps = s :: r := by
  intro ps
  induction ps with
  | nil => intro s acc; exact ⟨acc, rfl⟩
  | cons p rest ih =>
    intro s acc
    obtain ⟨x, hx⟩ := add_part_append (s :: acc) p
    rw [List.foldl_cons, hx, List.cons_append]
    exact ih s (acc ++ [x])

lemma build_chain_cons (p0 : Part) (ps : List Part) :
    ∃ srest, build_chain (p0 :: ps) =
      (⟨⟨0, 0⟩, p0.length • (⟨Real.cos p0.a0, Real.sin p0.a0⟩ : Vec2), 0, 0, none⟩ : Seg) ::
        srest := by
  show ∃ srest, List.foldl add_part (add_part [] p0) ps = _
  have h0 : add_part [] p0 =
      [(⟨⟨0, 0⟩, p0.length • (⟨Real.cos p0.a0, Real.sin p0.a0⟩ : Vec2), 0, 0,
        none⟩ : Seg)] := rfl
  rw [h0]
  exact foldl_add_part_head ps _ []

lemma len_smul_unit_angle (L a : ℝ) :
    Vec2.len (L • (⟨Real.cos a, Real.sin a⟩ : Vec2)) = |L| := by
  rw [smul_mk, len_mk]
  have h : (L * Real.cos a) ^ 2 + (L * Real.sin a) ^ 2 = L ^ 2 := by
    have hsc := Real.sin_sq_add_cos_sq a
    linear_combination L ^ 2 * hsc
  rw [h, Real.sqrt_sq_eq_abs]

/-- On a two-segment chain whose first segment has zero length (the second
of length 2, so `N_nonzero = 1` and the path is open), `make_profile`
raises ZeroDivisionError at `f.dz / f.line.length` (modelled by `none`)
and emits no frame at all. -/
lemma make_profile_zero_first_no_frames :
    make_profile [(⟨⟨0, 0⟩, ⟨0, 0⟩, 0, 0, none⟩ : Seg), ⟨⟨0, 0⟩, ⟨2, 0⟩, 0, 0, none⟩]
      [⟨0, 0⟩] 0 0 0 0 true emptyB = none ∧
    nonzeroCount [(⟨⟨0, 0⟩, ⟨0, 0⟩, 0, 0, none⟩ : Seg),
      ⟨⟨0, 0⟩, ⟨2, 0⟩, 0, 0, none⟩] = 1 := by
  have hop : offset_pass [(⟨⟨0, 0⟩, ⟨0, 0⟩, 0, 0, none⟩ : Seg),
      ⟨⟨0, 0⟩, ⟨2, 0⟩, 0, 0, none⟩] 0 none =
      [(⟨⟨⟨0, 0⟩, ⟨0, 0⟩⟩, 0, 0⟩ : OSeg), ⟨⟨⟨0, 0⟩, ⟨2, 0⟩⟩, 0, 0⟩] := by
    simp only [offset_pass, seg_make_offset_zero]
  have hz : ((⟨⟨⟨0, 0⟩, ⟨0, 0⟩⟩, 0, 0⟩ : OSeg)).line.length = 0 := len_zero_vec
  have hms : make_sections [(⟨⟨⟨0, 0⟩, ⟨0, 0⟩⟩, 0, 0⟩ : OSeg), ⟨⟨⟨0, 0⟩, ⟨2, 0⟩⟩, 0, 0⟩] =
      none := by
    rw [make_sections_cons, if_pos hz]
  constructor
  · simp only [make_profile, hop, hms]
  · have h2 : Vec2.len ⟨2, 0⟩ ≠ 0 := by
      rw [len_eval (by norm_num : (0 : ℝ) ≤ 2) (by norm_num)]
      norm_num
    simp only [nonzeroCount, if_pos len_zero_vec, if_neg h2]

/-- The offset pass on the closed square chain at `x_offset = 0.1`: every
offset line is the base line translated by `0.1` along the left normal of
its unit direction, so the four origins move to `(0, 0.1)`, `(1.9, 0)`,
`(2, 1.9)` and `(0.1, 2)`. -/
lemma square_offset_pass :
    offset_pass [(⟨⟨0, 0⟩, ⟨2, 0⟩, 0, 0, none⟩ : Seg), ⟨⟨2, 0⟩, ⟨0, 2⟩, 0, 0, none⟩,
        ⟨⟨2, 2⟩, ⟨-2, 0⟩, 0, 0, none⟩, ⟨⟨0, 2⟩, ⟨0, -2⟩, 0, 0, none⟩] 0.1 none =
      [⟨⟨⟨0, 0.1⟩, ⟨2, 0⟩⟩, 0, 0⟩, ⟨⟨⟨1.9, 0⟩, ⟨0, 2⟩⟩, 0, 0⟩,
       ⟨⟨⟨2, 1.9⟩, ⟨-2, 0⟩⟩, 0, 0⟩, ⟨⟨⟨0.1, 2⟩, ⟨0, -2⟩⟩, 0, 0⟩] := by
  have hm0 : ∀ last, seg_make_offset (⟨⟨0, 0⟩, ⟨2, 0⟩, 0, 0, none⟩ : Seg) 0.1 last =
      ⟨⟨0, 0.1⟩, ⟨2, 0⟩⟩ := by
    intro last
    show (⟨(⟨0, 0⟩ : Vec2) + (0.1 : ℝ) • (Vec2.normalized ⟨2, 0⟩).leftNormal,
      (⟨2, 0⟩ : Vec2)⟩ : Line2) = _
    rw [normalized_unit_x (by norm_num : (0 : ℝ) < 2)]
    show (⟨(⟨0, 0⟩ : Vec2) + (0.1 : ℝ) • (⟨-0, 1⟩ : Vec2), (⟨2, 0⟩ : Vec2)⟩ : Line2) = _
    rw [smul_mk, add_mk]
    norm_num
  have hm1 : ∀ last, seg_make_offset (⟨⟨2, 0⟩, ⟨0, 2⟩, 0, 0, none⟩ : Seg) 0.1 last =
      ⟨⟨1.9, 0⟩, ⟨0, 2⟩⟩ := by
    intro last
    show (⟨(⟨2, 0⟩ : Vec2) + (0.1 : ℝ) • (Vec2.normalized ⟨0, 2⟩).leftNormal,
      (⟨0, 2⟩ : Vec2)⟩ : Line2) = _
    rw [normalized_eval (by norm_num : (0 : ℝ) < 2) (by norm_num)]
    show (⟨(⟨2, 0⟩ : Vec2) + (0.1 : ℝ) • (⟨-(2 / 2), 0 / 2⟩ : Vec2),
      (⟨0, 2⟩ : Vec2)⟩ : Line2) = _
    rw [smul_mk, add_mk]
    norm_num
  have hm2 : ∀ last, seg_make_offset (⟨⟨2, 2⟩, ⟨-2, 0⟩, 0, 0, none⟩ : Seg) 0.1 last =
      ⟨⟨2, 1.9⟩, ⟨-2, 0⟩⟩ := by
    intro last
    show (⟨(⟨2, 2⟩ : Vec2) + (0.1 : ℝ) • (Vec2.normalized ⟨-2, 0⟩).leftNormal,
      (⟨-2, 0⟩ : Vec2)⟩ : Line2) = _
    rw [normalized_eval (by norm_num : (0 : ℝ) < 2) (by norm_num)]
    show (⟨(⟨2, 2⟩ : Vec2) + (0.1 : ℝ) • (⟨-(0 / 2), -2 / 2⟩ : Vec2),
      (⟨-2, 0⟩ : Vec2)⟩ : Line2) = _
    rw [smul_mk, add_mk]
    norm_num
  have hm3 : ∀ last, seg_make_offset (⟨⟨0, 2⟩, ⟨0, -2⟩, 0, 0, none⟩ : Seg) 0.1 last =
      ⟨⟨0.1, 2⟩, ⟨0, -2⟩⟩ := by
    intro last
    show (⟨(⟨0, 2⟩ : Vec2) + (0.1 : ℝ) • (Vec2.normalized ⟨0, -2⟩).leftNormal,
      (⟨0, -2⟩ : Vec2)⟩ : Line2) = _
    rw [normalized_eval (by norm_num : (0 : ℝ) < 2) (by norm_num)]
    show (⟨(⟨0, 2⟩ : Vec2) + (0.1 : ℝ) • (⟨-(-2 / 2), 0 / 2⟩ : Vec2),
      (⟨0, -2⟩ : Vec2)⟩ : Line2) = _
    rw [smul_mk, add_mk]
    norm_num
  simp only [offset_pass, hm0, hm1, hm2, hm3]

/-- The gap the closure test actually measures on the offset square: first
offset origin `(0, 0.1)` against last offset endpoint `(0.1, 0)`, distance
`√0.02 ≈ 0.1414`, not below `1e-4`. -/
lemma square_offset_gap :
    ¬ (((⟨⟨⟨0, 0.1⟩, ⟨2, 0⟩⟩, 0, 0⟩ : OSeg)).line.p -
        ((([(⟨⟨⟨1.9, 0⟩, ⟨0, 2⟩⟩, 0, 0⟩ : OSeg), ⟨⟨⟨2, 1.9⟩, ⟨-2, 0⟩⟩, 0, 0⟩,
            ⟨⟨⟨0.1, 2⟩, ⟨0, -2⟩⟩, 0, 0⟩].getLastD
            (⟨⟨⟨0, 0.1⟩, ⟨2, 0⟩⟩, 0, 0⟩ : OSeg)).line).p +
         (([(⟨⟨⟨1.9, 0⟩, ⟨0, 2⟩⟩, 0, 0⟩ : OSeg), ⟨⟨⟨2, 1.9⟩, ⟨-2, 0⟩⟩, 0, 0⟩,
            ⟨⟨⟨0.1, 2⟩, ⟨0, -2⟩⟩, 0, 0⟩].getLastD
            (⟨⟨⟨0, 0.1⟩, ⟨2, 0⟩⟩, 0, 0⟩ : OSeg)).line).v)).len < 0.0001 := by
  show ¬ (((⟨0, 0.1⟩ : Vec2) - ((⟨0.1, 2⟩ : Vec2) + (⟨0, -2⟩ : Vec2))).len < 0.0001)
  rw [add_mk, sub_mk]
  have hx : (0 : ℝ) - (0.1 + 0) = -0.1 := by norm_num
  have hy : (0.1 : ℝ) - (2 + -2) = 0.1 := by norm_num
  rw [hx, hy, len_mk]
  have h8 : Real.sqrt 0.00000001 = 0.0001 := sqrt_eval (by norm_num) (by norm_num)
  have hge : (0.0001 : ℝ) ≤ Real.sqrt ((-0.1 : ℝ) ^ 2 + (0.1 : ℝ) ^ 2) := by
    rw [← h8]
    exact Real.sqrt_le_sqrt (by norm_num)
  exact not_lt.mpr hge

/-- The code does NOT classify the exactly-closed square as closed at
`x_offset = 0.1`: closure is tested on the offset lines. -/
lemma square_not_closes :
    ¬ closesWithin [(⟨⟨0, 0⟩, ⟨2, 0⟩, 0, 0, none⟩ : Seg), ⟨⟨2, 0⟩, ⟨0, 2⟩, 0, 0, none⟩,
        ⟨⟨2, 2⟩, ⟨-2, 0⟩, 0, 0, none⟩, ⟨⟨0, 2⟩, ⟨0, -2⟩, 0, 0, none⟩] 0.1 := by
  rw [closesWithin_iff _ _ _ _ square_offset_pass]
  exact square_offset_gap

/-- The section list of the square chain at `x_offset = 0.1`: the closed
flag comes out `false` and all `1 + 4` frames are emitted. -/
lemma square_offset_sections :
    ∃ σs, make_sections (offset_pass [(⟨⟨0, 0⟩, ⟨2, 0⟩, 0, 0, none⟩ : Seg),
        ⟨⟨2, 0⟩, ⟨0, 2⟩, 0, 0, none⟩, ⟨⟨2, 2⟩, ⟨-2, 0⟩, 0, 0, none⟩,
        ⟨⟨0, 2⟩, ⟨0, -2⟩, 0, 0, none⟩] 0.1 none) = some (false, σs) ∧
      σs.length = 5 := by
  rw [square_offset_pass]
  have h0 : ((⟨⟨⟨0, 0.1⟩, ⟨2, 0⟩⟩, 0, 0⟩ : OSeg)).line.length ≠ 0 := by
    show Vec2.len ⟨2, 0⟩ ≠ 0
    rw [len_eval (by norm_num : (0 : ℝ) ≤ 2) (by norm_num)]
    norm_num
  have hl1 : ((⟨⟨⟨1.9, 0⟩, ⟨0, 2⟩⟩, 0, 0⟩ : OSeg)).line.length ≠ 0 := by
    show Vec2.len ⟨0, 2⟩ ≠ 0
    rw [len_eval (by norm_num : (0 : ℝ) ≤ 2) (by norm_num)]
    norm_num
  have hl2 : ((⟨⟨⟨2, 1.9⟩, ⟨-2, 0⟩⟩, 0, 0⟩ : OSeg)).line.length ≠ 0 := by
    show Vec2.len ⟨-2, 0⟩ ≠ 0
    rw [len_eval (by norm_num : (0 : ℝ) ≤ 2) (by norm_num)]
    norm_num
  have hl3 : ((⟨⟨⟨0.1, 2⟩, ⟨0, -2⟩⟩, 0, 0⟩ : OSeg)).line.length ≠ 0 := by
    show Vec2.len ⟨0, -2⟩ ≠ 0
    rw [len_eval (by norm_num : (0 : ℝ) ≤ 2) (by norm_num)]
    norm_num
  rw [make_sections_succeeds (⟨⟨⟨0, 0.1⟩, ⟨2, 0⟩⟩, 0, 0⟩ : OSeg)
      [⟨⟨⟨1.9, 0⟩, ⟨0, 2⟩⟩, 0, 0⟩, ⟨⟨⟨2, 1.9⟩, ⟨-2, 0⟩⟩, 0, 0⟩,
       ⟨⟨⟨0.1, 2⟩, ⟨0, -2⟩⟩, 0, 0⟩] h0,
    decide_eq_false square_offset_gap]
  refine ⟨_, rfl, ?_⟩
  rw [List.filterMap_cons_some (by simp only [if_neg hl1]; rfl),
    List.filterMap_cons_some (by simp only [if_neg hl2]; rfl),
    List.filterMap_cons_some (by simp only [if_neg hl3]; rfl),
    List.filterMap_nil]
  rfl

/-- C1 counterexample, both failures of the original claim on concrete
inputs.  (i) A two-segment chain whose first segment has zero length (the
second of length 2, `N_nonzero = 1`, path open): the claim demands
`N_nonzero + 1 = 2` frames, but `make_profile` raises ZeroDivisionError
at `f.dz / f.line.length` (modelled by `none`) and emits none.
(ii) The square chain built from corners `(0,0), (2,0), (2,2), (0,2)` at
`x_offset = 0.1`: the claim's closure test on the RAW segments holds (the
first segment's origin and the last segment's endpoint coincide, distance
`0 < 1e-4`, `N_nonzero = 4`), so the claim demands `N_nonzero = 4` frames;
but the code tests closure on the OFFSET lines, whose gap is
`√0.02 ≈ 0.14`, classifies the path open, and emits
`N_nonzero + 1 = 5` frames. -/
theorem make_profile_frame_count_cex :
    (make_profile [(⟨⟨0, 0⟩, ⟨0, 0⟩, 0, 0, none⟩ : Seg), ⟨⟨0, 0⟩, ⟨2, 0⟩, 0, 0, none⟩]
        [⟨0, 0⟩] 0 0 0 0 true emptyB = none ∧
     nonzeroCount [(⟨⟨0, 0⟩, ⟨0, 0⟩, 0, 0, none⟩ : Seg),
       ⟨⟨0, 0⟩, ⟨2, 0⟩, 0, 0, none⟩] = 1) ∧
    (((⟨⟨0, 0⟩, ⟨2, 0⟩, 0, 0, none⟩ : Seg).p -
        ((⟨⟨0, 2⟩, ⟨0, -2⟩, 0, 0, none⟩ : Seg).p +
         (⟨⟨0, 2⟩, ⟨0, -2⟩, 0, 0, none⟩ : Seg).v)).len < 0.0001 ∧
     nonzeroCount [(⟨⟨0, 0⟩, ⟨2, 0⟩, 0, 0, none⟩ : Seg), ⟨⟨2, 0⟩, ⟨0, 2⟩, 0, 0, none⟩,
       ⟨⟨2, 2⟩, ⟨-2, 0⟩, 0, 0, none⟩, ⟨⟨0, 2⟩, ⟨0, -2⟩, 0, 0, none⟩] = 4 ∧
     ¬ closesWithin [(⟨⟨0, 0⟩, ⟨2, 0⟩, 0, 0, none⟩ : Seg), ⟨⟨2, 0⟩, ⟨0, 2⟩, 0, 0, none⟩,
       ⟨⟨2, 2⟩, ⟨-2, 0⟩, 0, 0, none⟩, ⟨⟨0, 2⟩, ⟨0, -2⟩, 0, 0, none⟩] 0.1 ∧
     frame_count [(⟨⟨0, 0⟩, ⟨2, 0⟩, 0, 0, none⟩ : Seg), ⟨⟨2, 0⟩, ⟨0, 2⟩, 0, 0, none⟩,
       ⟨⟨2, 2⟩, ⟨-2, 0⟩, 0, 0, none⟩, ⟨⟨0, 2⟩, ⟨0, -2⟩, 0, 0, none⟩] 0.1 = some 5) := by
  refine ⟨make_profile_zero_first_no_frames, ?_, ?_, square_not_closes, ?_⟩
  · show ((⟨0, 0⟩ : Vec2) - ((⟨0, 2⟩ : Vec2) + (⟨0, -2⟩ : Vec2))).len < 0.0001
    rw [add_mk, sub_mk]
    have hx : (0 : ℝ) - (0 + 0) = 0 := by norm_num
    have hy : (0 : ℝ) - (2 + -2) = 0 := by norm_num
    rw [hx, hy, len_zero_vec]
    norm_num
  · have h1 : Vec2.len ⟨2, 0⟩ ≠ 0 := by
      rw [len_eval (by norm_num : (0 : ℝ) ≤ 2) (by norm_num)]
      norm_num
    have h2 : Vec2.len ⟨0, 2⟩ ≠ 0 := by
      rw [len_eval (by norm_num : (0 : ℝ) ≤ 2) (by norm_num)]
      norm_num
    have h3 : Vec2.len ⟨-2, 0⟩ ≠ 0 := by
      rw [len_eval (by norm_num : (0 : ℝ) ≤ 2) (by norm_num)]
      norm_num
    have h4 : Vec2.len ⟨0, -2⟩ ≠ 0 := by
      rw [len_eval (by norm_num : (0 : ℝ) ≤ 2) (by norm_num)]
      norm_num
    simp only [nonzeroCount, if_neg h1, if_neg h2, if_neg h3, if_neg h4]
  · obtain ⟨σs, hms, hlen5⟩ := square_offset_sections
    rw [frame_count, hms, Option.map_some']
    simp only [Bool.false_eq_true, if_false, hlen5]

open Classical in
/-- Witness for C1: a one-segment open chain of length 1 at offset 0; the
path is not closed, `N_nonzero = 1`, and the sweep appends
`1 * (1 + 1) = 2` vertices. -/
theorem make_profile_frame_count_witness :
    Vec2.len ⟨1, 0⟩ ≠ 0 ∧
    ¬ closesWithin [(⟨⟨0, 0⟩, ⟨1, 0⟩, 0, 0, none⟩ : Seg)] 0 ∧
    nonzeroCount [(⟨⟨0, 0⟩, ⟨1, 0⟩, 0, 0, none⟩ : Seg)] = 1 ∧
    (∃ out, make_profile [(⟨⟨0, 0⟩, ⟨1, 0⟩, 0, 0, none⟩ : Seg)] [⟨0, 0⟩] 0 0 0 0 true
        emptyB = some out ∧
      out.verts.length = emptyB.verts.length + ([(⟨0, 0⟩ : Vec2)]).length *
        (if closesWithin [(⟨⟨0, 0⟩, ⟨1, 0⟩, 0, 0, none⟩ : Seg)] 0
         then nonzeroCount [(⟨⟨0, 0⟩, ⟨1, 0⟩, 0, 0, none⟩ : Seg)]
         else nonzeroCount [(⟨⟨0, 0⟩, ⟨1, 0⟩, 0, 0, none⟩ : Seg)] + 1)) := by
  have hlen : Vec2.len ⟨1, 0⟩ = 1 := len_eval (by norm_num) (by norm_num)
  have h0 : Vec2.len ⟨1, 0⟩ ≠ 0 := by
    rw [hlen]
    norm_num
  refine ⟨h0, single_not_closes (by norm_num) (by norm_num), ?_,
    make_profile_frame_count ⟨⟨0, 0⟩, ⟨1, 0⟩, 0, 0, none⟩ [] [⟨0, 0⟩] 0 0 0 0 true
      emptyB h0⟩
  simp only [nonzeroCount, if_neg h0]

/-- C2 (code bug): the part's elevation delta `dz = 1` never reaches the
generated segment — `add_part` builds the segment with `dz = 0`, `z0 = 0`
(they are never assigned after `Molding.__init__`) — so both section
frames carry elevation 0 where the claim demands `[0, 0 + 1] = [0, 1]`. -/
theorem molding_elevation_stays_zero :
    build_chain [⟨2, 0, 1⟩] = [⟨⟨0, 0⟩, ⟨2, 0⟩, 0, 0, none⟩] ∧
    frame_elevations (build_chain [⟨2, 0, 1⟩]) 0 = some [0, 0] ∧
    ([(0 : ℝ), 0] : List ℝ) ≠ [0, 1] := by
  refine ⟨build_chain_one 2 1, ?_, by simp⟩
  rw [build_chain_one 2 1, frame_elevations,
    single_seg_sections (by norm_num : (0 : ℝ) < 2) (by norm_num)]
  rfl

/-- C3 counterexample: with a zero-length first part the geometry core
raises — `make_profile` hits the unguarded `f.dz / f.line.length` with a
zero-length first offset line (Python ZeroDivisionError, modelled by
`none`) — contradicting the claim that a zero-length segment anywhere,
including first, is silently excluded without error. -/
theorem geometry_core_zero_length_first_raises :
    make_profile (build_chain [⟨0, 0, 0⟩, ⟨2, 0, 0⟩]) [⟨0, 0⟩] 0 0 0 0 true emptyB =
      none := by
  rw [build_chain_zero_first]
  have hop : offset_pass [(⟨⟨0, 0⟩, ⟨0, 0⟩, 0, 0, none⟩ : Seg),
      ⟨⟨0, 0⟩, ⟨0, 0⟩, 0, 0, none⟩] 0 none =
      [(⟨⟨⟨0, 0⟩, ⟨0, 0⟩⟩, 0, 0⟩ : OSeg), ⟨⟨⟨0, 0⟩, ⟨0, 0⟩⟩, 0, 0⟩] := by
    simp only [offset_pass, seg_make_offset_zero]
  have hz2 : ((⟨⟨⟨0, 0⟩, ⟨0, 0⟩⟩, 0, 0⟩ : OSeg)).line.length = 0 := len_zero_vec
  have hms : make_sections [(⟨⟨⟨0, 0⟩, ⟨0, 0⟩⟩, 0, 0⟩ : OSeg), ⟨⟨⟨0, 0⟩, ⟨0, 0⟩⟩, 0, 0⟩] =
      none := by
    rw [make_sections_cons, if_pos hz2]
  simp only [make_profile, hop, hms]

/-- C3 (amended): `add_part` and `set_offset` are total, and `make_profile`
raises no exception provided the first part has nonzero length; zero-length
segments at any later position are silently excluded from frame
generation (the section list holds exactly one frame per nonzero-length
segment, plus the initial frame). -/
theorem make_profile_total_of_first_nonzero (p0 : Part) (ps : List Part)
    (profile : List Vec2) (idmat : ℕ) (x z e : ℝ) (c : Bool) (b : Buffers)
    (h0 : p0.length ≠ 0) :
    (∃ out, make_profile (build_chain (p0 :: ps)) profile idmat x z e c b = some out) ∧
    (∃ cp σs,
      make_sections (offset_pass (build_chain (p0 :: ps)) x none) = some (cp, σs) ∧
      σs.length = 1 + nonzeroCount (build_chain (p0 :: ps))) := by
  obtain ⟨srest, hch⟩ := build_chain_cons p0 ps
  have hv : Vec2.len (p0.length • (⟨Real.cos p0.a0, Real.sin p0.a0⟩ : Vec2)) ≠ 0 := by
    rw [len_smul_unit_angle]
    exact abs_ne_zero.mpr h0
  rw [hch]
  constructor
  · exact make_profile_succeeds _ srest profile idmat x z e c b hv
  · have hos : offset_pass ((⟨⟨0, 0⟩, p0.length • (⟨Real.cos p0.a0,
        Real.sin p0.a0⟩ : Vec2), 0, 0, none⟩ : Seg) :: srest) x none =
        (⟨seg_make_offset (⟨⟨0, 0⟩, p0.length • (⟨Real.cos p0.a0,
          Real.sin p0.a0⟩ : Vec2), 0, 0, none⟩ : Seg) x none, 0, 0⟩ : OSeg) ::
          offset_pass srest x (some (seg_make_offset (⟨⟨0, 0⟩,
            p0.length • (⟨Real.cos p0.a0, Real.sin p0.a0⟩ : Vec2), 0, 0,
            none⟩ : Seg) x none)) := rfl
    have hms := make_sections_succeeds
      (⟨seg_make_offset (⟨⟨0, 0⟩, p0.length • (⟨Real.cos p0.a0,
        Real.sin p0.a0⟩ : Vec2), 0, 0, none⟩ : Seg) x none, 0, 0⟩ : OSeg)
      (offset_pass srest x (some (seg_make_offset (⟨⟨0, 0⟩,
        p0.length • (⟨Real.cos p0.a0, Real.sin p0.a0⟩ : Vec2), 0, 0,
        none⟩ : Seg) x none))) hv
    rw [← hos] at hms
    refine ⟨_, _, hms, ?_⟩
    have hsl := sections_length_eq _ srest x _ _ hms
    rw [hsl.1]
    simp only [nonzeroCount, if_neg hv]
    omega

/-- Witness for C3: one part of length 1; the call succeeds and the section
list has `1 + 1` entries. -/
theorem make_profile_total_witness :
    ((1 : ℝ) ≠ 0) ∧
    ((∃ out, make_profile (build_chain [(⟨1, 0, 0⟩ : Part)]) [] 0 0 0 0 true emptyB =
        some out) ∧
     (∃ cp σs,
       make_sections (offset_pass (build_chain [(⟨1, 0, 0⟩ : Part)]) 0 none) =
         some (cp, σs) ∧
       σs.length = 1 + nonzeroCount (build_chain [(⟨1, 0, 0⟩ : Part)]))) :=
  ⟨by norm_num,
   make_profile_total_of_first_nonzero ⟨1, 0, 0⟩ [] [] 0 0 0 0 true emptyB
     (by norm_num)⟩

/-- C4: for unit incoming/outgoing directions the mitre scale equals
`min(10, 1 / cos(0.5 * angleBetween(v0, v1)))` (whenever that half-angle
cosine is nonzero, i.e. everywhere except the exactly antiparallel pair,
where the float code caps the scale at 10), always lies in `[1, 10]`, and
equals 1 exactly when the two directions coincide (collinear, angle 0). -/
theorem mitre_scale_props (v0 v1 : Vec2) (h0 : v0.len = 1) (h1 : v1.len = 1) :
    (Real.cos (0.5 * angleBetween v0 v1) ≠ 0 →
      mitre_scale (v0.dot v1) = min 10 (1 / Real.cos (0.5 * angleBetween v0 v1))) ∧
    1 ≤ mitre_scale (v0.dot v1) ∧ mitre_scale (v0.dot v1) ≤ 10 ∧
    (mitre_scale (v0.dot v1) = 1 ↔ v0 = v1) := by
  have hd1 : -1 ≤ v0.dot v1 := Vec2.neg_one_le_dot h0 h1
  have hd2 : v0.dot v1 ≤ 1 := Vec2.dot_le_one h0 h1
  have hab : angleBetween v0 v1 = Real.arccos (v0.dot v1) := by
    rw [angleBetween, h0, h1]
    norm_num
  have hb := mitre_scale_bounds hd1 hd2
  refine ⟨?_, hb.1, hb.2, ?_, ?_⟩
  · intro hc
    rw [hab] at hc
    simp only [mitre_scale, clamp_of_mem hd1 hd2]
    rw [if_neg hc, hab]
  · intro h
    exact Vec2.eq_of_unit_dot_one h0 h1 ((mitre_scale_eq_one_iff hd1 hd2).mp h)
  · intro h
    rw [h, Vec2.dot_self_of_len_one h1]
    exact mitre_scale_one

/-- Witness for C4: the pair of equal unit vectors `(1, 0)`, where the
scale is 1 and the bounds hold. -/
theorem mitre_scale_props_witness :
    Vec2.len ⟨1, 0⟩ = 1 ∧
    1 ≤ mitre_scale (Vec2.dot ⟨1, 0⟩ ⟨1, 0⟩) ∧
    mitre_scale (Vec2.dot ⟨1, 0⟩ ⟨1, 0⟩) ≤ 10 ∧
    (mitre_scale (Vec2.dot ⟨1, 0⟩ ⟨1, 0⟩) = 1 ↔ (⟨1, 0⟩ : Vec2) = ⟨1, 0⟩) := by
  have hl : Vec2.len ⟨1, 0⟩ = 1 := len_eval (by norm_num) (by norm_num)
  have h := mitre_scale_props ⟨1, 0⟩ ⟨1, 0⟩ hl hl
  exact ⟨hl, h.2.1, h.2.2.1, h.2.2.2⟩

/-- Witness for C5: a single segment from `(0,0)` to `(2,0)` at offset 0
with the one-point profile `[(1, 0)]`: the emitted vertices follow the
per-frame formula over the two section frames, and on this open path the
first and last frame directions are the plain section normals (no mitring
at the ends). -/
theorem make_profile_vertex_positions_witness :
    make_sections (offset_pass [(⟨⟨0, 0⟩, ⟨2, 0⟩, 0, 0, none⟩ : Seg)] 0 none) =
      some (false, [⟨⟨⟨0, 0⟩, ⟨1, 0⟩⟩, 0, 0⟩, ⟨⟨⟨2, 0⟩, ⟨1, 0⟩⟩, 0, 0⟩]) ∧
    ∃ out,
      make_profile [(⟨⟨0, 0⟩, ⟨2, 0⟩, 0, 0, none⟩ : Seg)] [⟨1, 0⟩] 0 0 0 0 true emptyB =
        some out ∧
      out.verts = emptyB.verts ++
        (List.range 2).flatMap (fun s => ([(⟨1, 0⟩ : Vec2)]).map (fun p =>
          (⟨(framePos [⟨⟨⟨0, 0⟩, ⟨1, 0⟩⟩, 0, 0⟩, ⟨⟨⟨2, 0⟩, ⟨1, 0⟩⟩, 0, 0⟩] s).x +
              frameScale [⟨⟨⟨0, 0⟩, ⟨1, 0⟩⟩, 0, 0⟩, ⟨⟨⟨2, 0⟩, ⟨1, 0⟩⟩, 0, 0⟩] s * p.x *
                (frameDir [⟨⟨⟨0, 0⟩, ⟨1, 0⟩⟩, 0, 0⟩, ⟨⟨⟨2, 0⟩, ⟨1, 0⟩⟩, 0, 0⟩] s).x,
            (framePos [⟨⟨⟨0, 0⟩, ⟨1, 0⟩⟩, 0, 0⟩, ⟨⟨⟨2, 0⟩, ⟨1, 0⟩⟩, 0, 0⟩] s).y +
              frameScale [⟨⟨⟨0, 0⟩, ⟨1, 0⟩⟩, 0, 0⟩, ⟨⟨⟨2, 0⟩, ⟨1, 0⟩⟩, 0, 0⟩] s * p.x *
                (frameDir [⟨⟨⟨0, 0⟩, ⟨1, 0⟩⟩, 0, 0⟩, ⟨⟨⟨2, 0⟩, ⟨1, 0⟩⟩, 0, 0⟩] s).y,
            frameZ [⟨⟨⟨0, 0⟩, ⟨1, 0⟩⟩, 0, 0⟩, ⟨⟨⟨2, 0⟩, ⟨1, 0⟩⟩, 0, 0⟩] s + p.y + 0⟩ :
            Vec3))) ∧
      frameDir [⟨⟨⟨0, 0⟩, ⟨1, 0⟩⟩, 0, 0⟩, ⟨⟨⟨2, 0⟩, ⟨1, 0⟩⟩, 0, 0⟩] 0 =
        secDir [⟨⟨⟨0, 0⟩, ⟨1, 0⟩⟩, 0, 0⟩, ⟨⟨⟨2, 0⟩, ⟨1, 0⟩⟩, 0, 0⟩] 0 ∧
      frameDir [⟨⟨⟨0, 0⟩, ⟨1, 0⟩⟩, 0, 0⟩, ⟨⟨⟨2, 0⟩, ⟨1, 0⟩⟩, 0, 0⟩] 1 =
        secDir [⟨⟨⟨0, 0⟩, ⟨1, 0⟩⟩, 0, 0⟩, ⟨⟨⟨2, 0⟩, ⟨1, 0⟩⟩, 0, 0⟩] 1 := by
  have hms := single_seg_sections (by norm_num : (0 : ℝ) < 2) (by norm_num)
  have hv : Vec2.len ⟨2, 0⟩ ≠ 0 := by
    rw [len_eval (by norm_num : (0 : ℝ) ≤ 2) (by norm_num)]
    norm_num
  obtain ⟨out, hmp⟩ := make_profile_succeeds ⟨⟨0, 0⟩, ⟨2, 0⟩, 0, 0, none⟩ [] [⟨1, 0⟩]
    0 0 0 0 true emptyB hv
  have hth := make_profile_vertex_positions [⟨⟨0, 0⟩, ⟨2, 0⟩, 0, 0, none⟩] [⟨1, 0⟩]
    0 0 0 0 true emptyB out false
    [⟨⟨⟨0, 0⟩, ⟨1, 0⟩⟩, 0, 0⟩, ⟨⟨⟨2, 0⟩, ⟨1, 0⟩⟩, 0, 0⟩] hms hmp
  exact ⟨hms, out, hmp, hth.1, (hth.2 rfl).1, (hth.2 rfl).2⟩

/-- C6: the sweep emits `k * m` vertices for a `k`-point profile over `m`
frames (in general, on top of whatever the buffers already hold); on the
SQUARE scenario — one straight part of length 2.0, profile
`[(0, 0.1), (0, 0), (0.02, 0), (0.02, 0.1)]`, material index 7 — the open
chain yields `m = 2` frames, hence 8 vertices, 4 quad faces, and material
ids `[7, 7, 7, 7]`. -/
theorem sweep_vertex_counts :
    (∀ (segs : List Seg) (profile : List Vec2) (idmat : ℕ) (x z e : ℝ) (c : Bool)
        (b out : Buffers) (m : ℕ), frame_count segs x = some m →
        make_profile segs profile idmat x z e c b = some out →
        out.verts.length = b.verts.length + profile.length * m) ∧
    (make_profile (build_chain [⟨2, 0, 0⟩]) (square_profile 0.02 0.1) 7 0 0 0 true
        emptyB).map (fun o => (o.verts.length, o.faces.length, o.matids)) =
      some (8, 4, [7, 7, 7, 7]) ∧
    frame_count (build_chain [⟨2, 0, 0⟩]) 0 = some 2 := by
  refine ⟨fun segs profile idmat x z e c b out m hfc hmp =>
    frame_count_verts segs profile idmat x z e c b out m hfc hmp, square_scenario, ?_⟩
  rw [build_chain_one 2 0]
  exact frame_count_single (by norm_num) (by norm_num)

/-- Witness for C6: a chain of one part of length 3 with the two-point
profile, material 5: the sweep appends `2 * 2` vertices. -/
theorem sweep_vertex_counts_witness :
    ∃ out, make_profile (build_chain [(⟨3, 0, 0⟩ : Part)]) [⟨0, 0⟩, ⟨1, 1⟩] 5 0 0 0 true
        emptyB = some out ∧
      out.verts.length = emptyB.verts.length + 2 * 2 := by
  rw [build_chain_one 3 0]
  have hv : Vec2.len ⟨3, 0⟩ ≠ 0 := by
    rw [len_eval (by norm_num : (0 : ℝ) ≤ 3) (by norm_num)]
    norm_num
  obtain ⟨out, hmp⟩ := make_profile_succeeds ⟨⟨0, 0⟩, ⟨3, 0⟩, 0, 0, none⟩ []
    [⟨0, 0⟩, ⟨1, 1⟩] 5 0 0 0 true emptyB hv
  have hfc : frame_count [(⟨⟨0, 0⟩, ⟨3, 0⟩, 0, 0, none⟩ : Seg)] 0 = some 2 :=
    frame_count_single (by norm_num) (by norm_num)
  exact ⟨out, hmp,
    sweep_vertex_counts.1 _ [⟨0, 0⟩, ⟨1, 1⟩] 5 0 0 0 true emptyB out 2 hfc hmp⟩

/-- C7 (amended): each part built by `from_spline` carries the planar
point-to-point distance as `length`, the z-difference as `dz`, and an `a0`
that is CONGRUENT MODULO `2π` to the heading difference
`atan2(Δy_i, Δx_i) - atan2(Δy_(i-1), Δx_(i-1))` (heading itself for
`i = 0`).  (The original claim's stronger normalization of `a0` into
`(-π, π]` fails: the accumulator drifts, see the counterexample.) -/
theorem parts_from_pts_deltas (p0 : Vec3) (rest : List Vec3) (i : ℕ)
    (hi : i < rest.length) :
    ((parts_from_pts (p0 :: rest)).getD i defPart).length =
        Real.sqrt (((rest.getD i defV3).x - ((p0 :: rest).getD i defV3).x) ^ 2 +
                   ((rest.getD i defV3).y - ((p0 :: rest).getD i defV3).y) ^ 2) ∧
    ((parts_from_pts (p0 :: rest)).getD i defPart).dz =
        (rest.getD i defV3).z - ((p0 :: rest).getD i defV3).z ∧
    ∃ k : ℤ, ((parts_from_pts (p0 :: rest)).getD i defPart).a0 =
        atan2 ((rest.getD i defV3).y - ((p0 :: rest).getD i defV3).y)
              ((rest.getD i defV3).x - ((p0 :: rest).getD i defV3).x) -
        (if i = 0 then 0
         else atan2 ((rest.getD (i - 1) defV3).y - ((p0 :: rest).getD (i - 1) defV3).y)
                    ((rest.getD (i - 1) defV3).x -
                      ((p0 :: rest).getD (i - 1) defV3).x)) +
        2 * Real.pi * k :=
  (from_spline_loop_spec rest p0 0).2 i hi

/-- C7 counterexample: on the five-point polyline
`(0,0), (-1,-1), (-1,0), (0,-1), (-1,-1)` the fourth generated part has
`a0 = 5π/4`, which lies outside the claimed normalized range `(-π, π]`. -/
theorem parts_from_pts_angle_out_of_range :
    ((parts_from_pts [⟨0, 0, 0⟩, ⟨-1, -1, 0⟩, ⟨-1, 0, 0⟩, ⟨0, -1, 0⟩,
        ⟨-1, -1, 0⟩]).getD 3 defPart).a0 = 5 * Real.pi / 4 ∧
    Real.pi < 5 * Real.pi / 4 := by
  constructor
  · rw [drift_parts]
    rfl
  · linarith [Real.pi_pos]

/-- Witness for C7: the two-point path `(0,0,0), (3,0,0)` at index 0: the
part has length 3, `dz = 0`, and `a0 ≡ 0 (mod 2π)`. -/
theorem parts_from_pts_deltas_witness :
    0 < ([(⟨3, 0, 0⟩ : Vec3)]).length ∧
    ((parts_from_pts [⟨0, 0, 0⟩, ⟨3, 0, 0⟩]).getD 0 defPart).length = 3 ∧
    ((parts_from_pts [⟨0, 0, 0⟩, ⟨3, 0, 0⟩]).getD 0 defPart).dz = 0 ∧
    ∃ k : ℤ, ((parts_from_pts [⟨0, 0, 0⟩, ⟨3, 0, 0⟩]).getD 0 defPart).a0 =
      2 * Real.pi * k := by
  have h := parts_from_pts_deltas ⟨0, 0, 0⟩ [⟨3, 0, 0⟩] 0 (by norm_num)
  refine ⟨by norm_num, ?_, ?_, ?_⟩
  · rw [h.1]
    show Real.sqrt (((3 : ℝ) - 0) ^ 2 + ((0 : ℝ) - 0) ^ 2) = 3
    exact sqrt_eval (by norm_num) (by norm_num)
  · rw [h.2.1]
    show (0 : ℝ) - 0 = 0
    norm_num
  · obtain ⟨k, hk⟩ := h.2.2
    refine ⟨k, ?_⟩
    rw [hk, if_pos rfl]
    have hY : (([(⟨3, 0, 0⟩ : Vec3)]).getD 0 defV3).y -
        (([(⟨0, 0, 0⟩ : Vec3), ⟨3, 0, 0⟩]).getD 0 defV3).y = 0 := by
      show (0 : ℝ) - 0 = 0
      norm_num
    have hX : (([(⟨3, 0, 0⟩ : Vec3)]).getD 0 defV3).x -
        (([(⟨0, 0, 0⟩ : Vec3), ⟨3, 0, 0⟩]).getD 0 defV3).x = 3 := by
      show (3 : ℝ) - 0 = 3
      norm_num
    rw [hY, hX, atan2_x_pos (by norm_num : (0 : ℝ) < 3)]
    norm_num [Real.arctan_zero]

/-- C8: round trip on the unit-free square — `from_spline` on the closed
4-point square spline of side 2 yields parts
`[(2, 0), (2, π/2), (2, π/2), (2, π/2)]` (all `dz = 0`), and feeding those
parts through `add_part` reconstructs segment origins
`(0,0), (2,0), (2,2), (0,2)` with the last segment ending back at
`(0, 2) + (0, -2) = (0, 0)`. -/
theorem square_roundtrip :
    parts_from_pts squarePts =
      [⟨2, 0, 0⟩, ⟨2, Real.pi / 2, 0⟩, ⟨2, Real.pi / 2, 0⟩, ⟨2, Real.pi / 2, 0⟩] ∧
    (build_chain [⟨2, 0, 0⟩, ⟨2, Real.pi / 2, 0⟩, ⟨2, Real.pi / 2, 0⟩,
        ⟨2, Real.pi / 2, 0⟩]).map Seg.p = [⟨0, 0⟩, ⟨2, 0⟩, ⟨2, 2⟩, ⟨0, 2⟩] ∧
    (⟨0, 2⟩ : Vec2) + ⟨0, -2⟩ = ⟨0, 0⟩ := by
  refine ⟨square_parts, ?_, ?_⟩
  · rw [square_chain]
    rfl
  · rw [add_mk]
    norm_num

/-- C9: `set_offset` is idempotent — a second pass at the same offset
rewrites each stored line to the same value, because `make_offset`
computes from the segment's base geometry (`p`, `v`), never from the
stored `line` — and consequently re-running it changes neither the offset
pass nor any `make_profile` output. -/
theorem set_offset_idempotent (segs : List Seg) (offset : ℝ) :
    set_offset (set_offset segs offset) offset = set_offset segs offset ∧
    (∀ (x : ℝ) (last : Option Line2),
      offset_pass (set_offset segs offset) x last = offset_pass segs x last) ∧
    (∀ (profile : List Vec2) (idmat : ℕ) (x z e : ℝ) (c : Bool) (b : Buffers),
      make_profile (set_offset segs offset) profile idmat x z e c b =
        make_profile segs profile idmat x z e c b) := by
  refine ⟨set_offset_idem_core segs offset, ?_, ?_⟩
  · intro x last
    rw [set_offset_eq_map]
    exact offset_pass_map_line (fun s => some (seg_make_offset s offset none)) x segs last
  · intro profile idmat x z e c b
    have hp : offset_pass (set_offset segs offset) x none = offset_pass segs x none := by
      rw [set_offset_eq_map]
      exact offset_pass_map_line (fun s => some (seg_make_offset s offset none)) x segs
        none
    simp only [make_profile, hp]

/-- C10: `make_profile` only appends to the caller's buffers — every
successful run returns buffers whose `verts`, `faces`, `matids` and `uvs`
extend the input lists as prefixes — and on an empty segment list it
returns the buffers unchanged. -/
theorem make_profile_append_only (segs : List Seg) (profile : List Vec2) (idmat : ℕ)
    (x z e : ℝ) (c : Bool) (b : Buffers) :
    (∀ out, make_profile segs profile idmat x z e c b = some out →
      ∃ dv df dm du,
        out = ⟨b.verts ++ dv, b.faces ++ df, b.matids ++ dm, b.uvs ++ du⟩) ∧
    (segs = [] → make_profile segs profile idmat x z e c b = some b) := by
  refine ⟨fun out h => make_profile_append segs profile idmat x z e c b out h, ?_⟩
  rintro rfl
  rfl

/-- Witness for C10: the empty chain over nonempty buffers returns them
unchanged, and the result indeed extends each input list. -/
theorem make_profile_append_only_witness :
    make_profile [] [] 0 0 0 0 true (⟨[⟨1, 2, 3⟩], [[0]], [5], []⟩ : Buffers) =
      some ⟨[⟨1, 2, 3⟩], [[0]], [5], []⟩ ∧
    ∃ dv df dm du, (⟨[⟨1, 2, 3⟩], [[0]], [5], []⟩ : Buffers) =
      ⟨[(⟨1, 2, 3⟩ : Vec3)] ++ dv, [[0]] ++ df, [5] ++ dm, [] ++ du⟩ := by
  have h := make_profile_append_only [] [] 0 0 0 0 true ⟨[⟨1, 2, 3⟩], [[0]], [5], []⟩
  have h2 := h.2 rfl
  exact ⟨h2, h.1 _ h2⟩

end ArchipackMolding
